import Mathlib

/-!
# Verification of the template-matching automation core

Shallow embedding of the repository `LLM-ComputerUse`:
* `src/utils/element_extraction.py` — `ElementExtractor.extract_templates`,
  `ElementExtractor.find_templates_on_screen` (OpenCV `TM_CCOEFF_NORMED`
  template matching over grayscale images);
* `src/utils/screen_capture.py` — `ScreenCapture.compare_screenshots`;
* `src/utils/action_execution.py` — `ActionExecutor.execute_action`;
* `src/template_automation.py` — `process_user_request` (JSON scraping).

Images are modelled as grayscale rasters with integer pixel values; the
floating-point normalized cross-correlation of `cv2.matchTemplate` is
modelled with exact arithmetic (integer numerators/denominators, the final
quotient over `ℝ`).  `cv2.imread` failure and Python exceptions that the
source catches are modelled with `Option`/`Except`.
-/

/-- A grayscale raster: `pix x y` is the intensity at column `x`, row `y`
(only `x < width`, `y < height` are meaningful). Models both a `PIL` image
after `cv2.cvtColor(..., COLOR_BGR2GRAY)` and a `cv2.imread(...,
IMREAD_GRAYSCALE)` result. -/
structure GrayImage where
  width : ℕ
  height : ℕ
  pix : ℕ → ℕ → ℤ


/-- Index set of a template's pixels: pairs `(j, i)` with `j < h` (row) and
`i < w` (column). -/
def NCC.idx (tpl : GrayImage) : Finset (ℕ × ℕ) :=
  Finset.range tpl.height ×ˢ Finset.range tpl.width


/-- Number of pixels of the template (`w*h`). -/
def NCC.area (tpl : GrayImage) : ℕ := tpl.width * tpl.height


/-- Sum of the template's pixels. -/
def NCC.sumT (tpl : GrayImage) : ℤ := ∑ p ∈ idx tpl, tpl.pix p.2 p.1


/-- Sum of squares of the template's pixels. -/
def NCC.sqSumT (tpl : GrayImage) : ℤ := ∑ p ∈ idx tpl, (tpl.pix p.2 p.1) ^ 2


/-- Sum of the live-image window of template shape anchored at `(x, y)`. -/
def NCC.sumW (img tpl : GrayImage) (x y : ℕ) : ℤ :=
  ∑ p ∈ idx tpl, img.pix (x + p.2) (y + p.1)


/-- Sum of squares over the window anchored at `(x, y)`. -/
def NCC.sqSumW (img tpl : GrayImage) (x y : ℕ) : ℤ :=
  ∑ p ∈ idx tpl, (img.pix (x + p.2) (y + p.1)) ^ 2


/-- Dot product of template and window. -/
def NCC.dotTW (img tpl : GrayImage) (x y : ℕ) : ℤ :=
  ∑ p ∈ idx tpl, tpl.pix p.2 p.1 * img.pix (x + p.2) (y + p.1)


/-- The area times the centered cross term of `TM_CCOEFF_NORMED`:
`n·Σ T·W − (Σ T)(Σ W) = n·Σ (T−mean T)(W−mean W)`. Scaling by `n` keeps the
quantity integral. -/
def NCC.ccNum (img tpl : GrayImage) (x y : ℕ) : ℤ :=
  (area tpl : ℤ) * dotTW img tpl x y - sumT tpl * sumW img tpl x y


/-- The area times the template's variance term: `n·Σ T² − (Σ T)²`. -/
def NCC.ccDenT (tpl : GrayImage) : ℤ :=
  (area tpl : ℤ) * sqSumT tpl - (sumT tpl) ^ 2


/-- The area times the window's variance term. -/
def NCC.ccDenW (img tpl : GrayImage) (x y : ℕ) : ℤ :=
  (area tpl : ℤ) * sqSumW img tpl x y - (sumW img tpl x y) ^ 2


/-- The `TM_CCOEFF_NORMED` correlation score at cell `(x, y)`:
`Σ T'·W' / √(Σ T'² · Σ W'²)` where primes denote mean-centering; the common
factor `area` in numerator and denominator cancels, so the scaled integer
quantities give the same real value. -/
noncomputable def NCC.score (img tpl : GrayImage) (x y : ℕ) : ℝ :=
  (ccNum img tpl x y : ℝ) / Real.sqrt ((ccDenT tpl * ccDenW img tpl x y : ℤ) : ℝ)


/-- Decidable transcription of `score ≥ c` (the `result >= confidence` test
of the source) for cells with positive denominator, obtained by squaring and
clearing the threshold's denominator (all arithmetic in `ℤ`, so the test is
kernel-computable; `meets_iff` below restates it over `ℚ` and
`le_score_of_meets` connects it to the real-valued score).
Zero-variance cells (denominator `0`) produce a float `NaN` in the source,
which compares false against any threshold, so they never qualify. -/
def NCC.meets (c : ℚ) (img tpl : GrayImage) (x y : ℕ) : Bool :=
  let n := ccNum img tpl x y
  let d := ccDenT tpl * ccDenW img tpl x y
  decide (0 < d ∧
    ((0 ≤ c.num ∧ 0 ≤ n ∧ c.num ^ 2 * d ≤ (c.den : ℤ) ^ 2 * n ^ 2) ∨
     (c.num < 0 ∧ (0 ≤ n ∨ (c.den : ℤ) ^ 2 * n ^ 2 ≤ c.num ^ 2 * d))))


/-- First index `m ∈ [k, k+fuel)` with `p m = true`, scanning upward. -/
def NCC.firstFrom (p : ℕ → Bool) : ℕ → ℕ → Option ℕ
  | _, 0 => none
  | k, fuel + 1 => if p k then some k else firstFrom p (k + 1) fuel


/-- First index in `[0, n)` satisfying `p`. -/
def NCC.firstHit (p : ℕ → Bool) (n : ℕ) : Option ℕ := firstFrom p 0 n


/-- Width of the `cv2.matchTemplate` score map: `W_live − W_tpl + 1`. -/
def resW (img tpl : GrayImage) : ℕ := img.width - tpl.width + 1


/-- Height of the score map: `H_live − H_tpl + 1`. -/
def resH (img tpl : GrayImage) : ℕ := img.height - tpl.height + 1


/-- One entry of the `locations` dictionary of `find_templates_on_screen`.
The winning score-map cell `(pt[0], pt[1])` is kept so that the stored
`confidence` (the score read at that cell) can be recovered. -/
structure MatchResult where
  center : ℕ × ℕ
  box : ℕ × ℕ × ℕ × ℕ
  cell : ℕ × ℕ
deriving DecidableEq, Repr


/-- Builds the dictionary entry from the winning point `pt` exactly as the
source does: `center = (pt[0] + w//2, pt[1] + h//2)` (floor division) and
`box = (pt[0], pt[1], pt[0]+w, pt[1]+h)`. -/
def mkResult (tpl : GrayImage) (pt : ℕ × ℕ) : MatchResult :=
  { center := (pt.1 + tpl.width / 2, pt.2 + tpl.height / 2)
    box := (pt.1, pt.2, pt.1 + tpl.width, pt.2 + tpl.height)
    cell := pt }


/-- The `confidence` value stored in the entry: the score map read at the
winning cell (`float(result[pt[1], pt[0]])`), not recomputed. -/
noncomputable def confidence (img tpl : GrayImage) (r : MatchResult) : ℝ :=
  NCC.score img tpl r.cell.1 r.cell.2


/-- Model of `cv2.matchTemplate` followed by the `np.where(result >= confidence)` /
`zip(*locations[::-1])` scan: raises (`Except.error`) when the live image is
smaller than the template in either dimension, otherwise returns the first
qualifying cell in row-major order (`y` outer, `x` inner — `np.where` emits
row-major indices and the loop breaks at the first point). Cells are
linearised as `k = y * resW + x`. -/
def searchTemplate (img tpl : GrayImage) (c : ℚ) : Except Unit (Option (ℕ × ℕ)) :=
  if img.width < tpl.width ∨ img.height < tpl.height then
    Except.error ()
  else
    Except.ok ((NCC.firstHit
        (fun k => NCC.meets c img tpl (k % resW img tpl) (k / resW img tpl))
        (resW img tpl * resH img tpl)).map
      (fun k => (k % resW img tpl, k / resW img tpl)))


/-- The template dictionary entry handed to `find_templates_on_screen`:
`file = none` models a missing or unloadable raster (`cv2.imread` → `None`). -/
structure TemplateInfo where
  file : Option GrayImage


/-- The per-template body of the loop of `find_templates_on_screen`: the
`imread`-`None` check skips, and the surrounding `try/except` turns the
size-mismatch exception of `cv2.matchTemplate` into a skip as well. -/
def findTemplate (img : GrayImage) (info : TemplateInfo) (c : ℚ) : Option MatchResult :=
  match info.file with
  | none => none
  | some tpl =>
    match searchTemplate img tpl c with
    | Except.error _ => none
    | Except.ok none => none
    | Except.ok (some pt) => some (mkResult tpl pt)


/-- Model of `ElementExtractor.find_templates_on_screen`: batch matching of a
dictionary of templates (modelled as an association list with distinct
names) against one screenshot; each template contributes at most its first
qualifying cell. -/
def find_templates_on_screen (img : GrayImage)
    (templates : List (String × TemplateInfo)) (c : ℚ) :
    List (String × MatchResult) :=
  templates.filterMap (fun nt => (findTemplate img nt.2 c).map (fun r => (nt.1, r)))


/-- The template's exact pixel content occurs unmodified in `img` with its
top-left corner at `(dx, dy)`. -/
def embedsAt (img tpl : GrayImage) (dx dy : ℕ) : Prop :=
  ∀ i, i < tpl.width → ∀ j, j < tpl.height → img.pix (dx + i) (dy + j) = tpl.pix i j


instance (img tpl : GrayImage) (dx dy : ℕ) : Decidable (embedsAt img tpl dx dy) := by
  unfold embedsAt
  infer_instance


/-- Row-major (top-to-bottom, then left-to-right) scan order on score-map
cells `(x, y)`: `p` is scanned strictly before `q`. -/
def rowBefore (p q : ℕ × ℕ) : Prop := p.2 < q.2 ∨ (p.2 = q.2 ∧ p.1 < q.1)


instance (p q : ℕ × ℕ) : Decidable (rowBefore p q) := by
  unfold rowBefore
  infer_instance


/-- The caller-side confidence threshold `0.8` (in lowest terms, so that the
integer threshold test of `meets` is kernel-computable). -/
def c45 : ℚ := ⟨4, 5, by decide, by decide⟩


/-- Concrete 2×1 template `[0, 1]`. -/
def tplA : GrayImage := ⟨2, 1, fun x _ => if x = 0 then 0 else 1⟩


/-- Concrete 4×1 frame `[0, 1, 0, 1]`: contains `tplA` twice (at offsets 0
and 2). -/
def imgA : GrayImage := ⟨4, 1, fun x _ => if x = 1 then 1 else if x = 3 then 1 else 0⟩


/-- Concrete 4×1 frame `[1, 1, 0, 1]`: contains `tplA` exactly once, at
offset 2; the earlier score-map cells do not qualify. -/
def imgB : GrayImage :=
  ⟨4, 1, fun x _ => if x = 0 then 1 else if x = 1 then 1 else if x = 2 then 0 else 1⟩


/-- Concrete 3×1 template `[0, 1, 1]`. -/
def tplB : GrayImage := ⟨3, 1, fun x _ => if x = 0 then 0 else 1⟩


/-- Concrete 6×1 frame `[0, 1, 2, 0, 1, 1]`: cell `(0,0)` qualifies at
threshold 0.8 with score `√3/2 ≈ 0.866` and cell `(3,0)` holds an exact copy
of `tplB` with score 1, so the first qualifying cell is not the globally
best one. -/
def imgC : GrayImage :=
  ⟨6, 1, fun x _ =>
    if x = 1 then 1 else if x = 2 then 2 else if x = 4 then 1 else if x = 5 then 1 else 0⟩


/-- Concrete 3×3 template, strictly taller and wider than the 4×1 frames. -/
def tplBig : GrayImage := ⟨3, 3, fun _ _ => 0⟩


/-- Template-store entry whose raster loads as `tplBig`. -/
def infoBig : TemplateInfo := ⟨some tplBig⟩


/-- Template-store entry whose raster loads as `tplB`. -/
def infoB : TemplateInfo := ⟨some tplB⟩


/-- Template-store entry whose raster is missing from disk. -/
def infoMiss : TemplateInfo := ⟨none⟩


/-- The opening-brace character, `U+007B`. -/
def lbrace : Char := '\x7b'


/-- The closing-brace character, `U+007D`. -/
def rbrace : Char := '\x7d'


/-- Python `str.find(ch)`: index of the first occurrence, `-1` if absent. -/
def pyFindIdx (ch : Char) : List Char → ℤ
  | [] => -1
  | c :: rest =>
    if c = ch then 0
    else if pyFindIdx ch rest = -1 then -1 else pyFindIdx ch rest + 1


/-- Python `str.rfind(ch)`: index of the last occurrence, `-1` if absent. -/
def pyRfindIdx (ch : Char) : List Char → ℤ
  | [] => -1
  | c :: rest =>
    if pyRfindIdx ch rest = -1 then (if c = ch then 0 else -1)
    else pyRfindIdx ch rest + 1


/-- The substring `response_text[start_idx:end_idx]` that the source hands to
`json.loads`: from the first opening brace to one past the last closing
brace. -/
def codeSpan (s : List Char) : List Char :=
  (s.take (pyRfindIdx rbrace s + 1).toNat).drop (pyFindIdx lbrace s).toNat


/-- Outcome of `process_user_request`: either the parsed action object, or
the explicit error dictionary the source builds in place of raising. -/
inductive ActionResult (J : Type) where
  | parsed (j : J)
  | err (msg : String)
deriving DecidableEq


/-- Model of `process_user_request` (`src/template_automation.py`, identical
scraping in `src/desktop_automation.py`): the translator's reply is scraped
with `find` / `rfind` for braces; `json.loads` is the external collaborator
`loads`, returning `none` where the library would raise, which the
`try/except` of the source converts into the error dictionary. -/
def process_user_request {J : Type} (loads : List Char → Option J)
    (response_text : List Char) : ActionResult J :=
  let start_idx := pyFindIdx lbrace response_text
  let end_idx := pyRfindIdx rbrace response_text + 1
  if start_idx ≠ -1 ∧ end_idx ≠ -1 then
    match loads ((response_text.take end_idx.toNat).drop start_idx.toNat) with
    | some j => ActionResult.parsed j
    | none => ActionResult.err "Parse error"
  else ActionResult.err "Could not parse response"


/-- Helper scan for `firstBalancedBrace`: consumes characters with the
current nesting depth, accumulating the candidate in reverse. -/
def goBal : List Char → ℕ → List Char → Option (List Char)
  | [], _, _ => none
  | c :: rest, depth, acc =>
    if c = lbrace then goBal rest (depth + 1) (c :: acc)
    else if c = rbrace then
      if depth = 1 then some ((c :: acc).reverse)
      else goBal rest (depth - 1) (c :: acc)
    else goBal rest depth (c :: acc)


/-- Modelled from the spec: the extraction policy the spec describes —
"locating the first balanced bracketed substring (`{...}` for objects)" —
which is not found anywhere in the source (the source uses first-`find` /
last-`rfind` scraping); defined here only to compare against `codeSpan`. -/
def firstBalancedBrace (s : List Char) : Option (List Char) :=
  match s.dropWhile (· ≠ lbrace) with
  | [] => none
  | c :: rest => goBal rest 1 [c]


/-- A model `json.loads`: accepts exactly the object `\x7ba\x7d` (the first
balanced bracketed substring of the demonstration reply), as the real parser
would, and rejects everything else. -/
def demoLoads (s : List Char) : Option (List Char) :=
  if s = [lbrace, 'a', rbrace] then some s else none


/-- The demonstration translator reply `\x7ba\x7d \x7bb\x7d`. -/
def demoResp : List Char := [lbrace, 'a', rbrace, ' ', lbrace, 'b', rbrace]


/-- Pixel offsets of one 7×7 comparison window (skimage's default
`win_size` for `structural_similarity`), as pairs `(j, i)`. -/
def SSIM.wIdx : Finset (ℕ × ℕ) := Finset.range 7 ×ˢ Finset.range 7


/-- Mean of the 7×7 window of `a` anchored at `(x, y)`. -/
def SSIM.mu (a : GrayImage) (x y : ℕ) : ℚ :=
  (∑ p ∈ wIdx, (a.pix (x + p.2) (y + p.1) : ℚ)) / 49


/-- Sample covariance (normalisation `1/(49−1)`, skimage's
`use_sample_covariance=True`) of the windows of `a` and `b` at `(x, y)`. -/
def SSIM.cov (a b : GrayImage) (x y : ℕ) : ℚ :=
  (∑ p ∈ wIdx, ((a.pix (x + p.2) (y + p.1) : ℚ) - mu a x y)
      * ((b.pix (x + p.2) (y + p.1) : ℚ) - mu b x y)) / 48


/-- The stabilising constant `C1 = (0.01 · 255)² = 6.5025`. -/
def SSIM.C1q : ℚ := 2601 / 400


/-- The stabilising constant `C2 = (0.03 · 255)² = 58.5225`. -/
def SSIM.C2q : ℚ := 23409 / 400


/-- The SSIM value of one window pair. -/
def SSIM.localSSIM (a b : GrayImage) (x y : ℕ) : ℚ :=
  ((2 * mu a x y * mu b x y + C1q) * (2 * cov a b x y + C2q)) /
    ((mu a x y ^ 2 + mu b x y ^ 2 + C1q) * (cov a a x y + cov b b x y + C2q))


/-- Anchors of all full 7×7 windows inside `a`. -/
def SSIM.posIdx (a : GrayImage) : Finset (ℕ × ℕ) :=
  Finset.range (a.height - 6) ×ˢ Finset.range (a.width - 6)


/-- The global structural-similarity score: mean of the windowed values
(what `structural_similarity(image1, image2)` returns). -/
def SSIM.ssimScore (a b : GrayImage) : ℚ :=
  (∑ p ∈ posIdx a, localSSIM a b p.2 p.1) / (posIdx a).card


/-- Model of `ScreenCapture.compare_screenshots`: both inputs already
grayscale; when the shapes differ, `image2` is resized to `image1`'s shape
by the external `cv2.resize` (the `resizeFn` collaborator).  With
`structural_similarity` importable the SSIM score is returned, otherwise the
fallback runs `cv2.matchTemplate(image1, image2, TM_CCOEFF_NORMED)` — a 1×1
score map for equal shapes — and returns `cv2.minMaxLoc`'s maximum, i.e. the
correlation score at cell `(0, 0)`. -/
noncomputable def compare_screenshots (resizeFn : GrayImage → ℕ → ℕ → GrayImage)
    (ssimAvailable : Bool) (image1 image2 : GrayImage) : ℝ :=
  let image2' :=
    if image1.width = image2.width ∧ image1.height = image2.height then image2
    else resizeFn image2 image1.width image1.height
  if ssimAvailable then ((SSIM.ssimScore image1 image2' : ℚ) : ℝ)
  else NCC.score image1 image2' 0 0


/-- Concrete 2×1 frame `[1, 0]`, perfectly anti-correlated with `tplA`. -/
def imgE : GrayImage := ⟨2, 1, fun x _ => if x = 0 then 1 else 0⟩


/-- Concrete 7×7 gradient image, large enough for one SSIM window. -/
def img7 : GrayImage := ⟨7, 7, fun x y => (x : ℤ) + (y : ℤ)⟩


/-- Model of the name sanitization of `extract_templates`:
`''.join(c if c.isalnum() else '_' for c in name).lower()` — every
non-alphanumeric character becomes `'_'`, then the result is lowercased
(the model covers the basic-latin range of `str.isalnum` / `str.lower`). -/
def sanitize (name : List Char) : List Char :=
  (name.map (fun c => if c.isAlphanum then c else '_')).map Char.toLower


/-- One UI element of the translator's reply, as consumed by
`extract_templates`: name and bounding box may each be absent. -/
structure Element where
  name : Option (List Char)
  bounding_box : Option (ℤ × ℤ × ℤ × ℤ)


/-- Model of `PIL.Image.crop((x1, y1, x2, y2))`: raises (Pillow's
`ValueError`) when the box is inverted (`x2 < x1` or `y2 < y1`); otherwise
returns a `(x2−x1) × (y2−y1)` raster, PADDING with zeros wherever the box
leaves the source image — out-of-bounds boxes are not rejected. -/
def pilCrop (img : GrayImage) (x1 y1 x2 y2 : ℤ) : Except Unit GrayImage :=
  if x2 < x1 ∨ y2 < y1 then Except.error ()
  else Except.ok ⟨(x2 - x1).toNat, (y2 - y1).toNat, fun i j =>
    if 0 ≤ x1 + i ∧ x1 + i < img.width ∧ 0 ≤ y1 + j ∧ y1 + j < img.height
    then img.pix (x1 + i).toNat (y1 + j).toNat else 0⟩


/-- Model of `PIL Image.save(filename)` for the PNG rasters of the store:
raises when the raster has a zero dimension (a zero-size PNG cannot be
encoded), succeeds otherwise. -/
def pilSave (img : GrayImage) : Except Unit Unit :=
  if img.width = 0 ∨ img.height = 0 then Except.error () else Except.ok ()


/-- The value stored under a name in the dictionary that `extract_templates`
returns, together with the raster that went to disk under the sanitized
filename key. -/
structure TemplateRec where
  key : List Char
  bounding_box : ℤ × ℤ × ℤ × ℤ
  image : GrayImage


/-- Model of `ElementExtractor.extract_templates`: for each element that has
a name and a bounding box, crop, save (both exceptions caught, the element
skipped) and record the template under the original name; the file on disk
is keyed by `sanitize name`. -/
def extract_templates (screenshot : GrayImage) (elements : List Element) :
    List (List Char × TemplateRec) :=
  elements.filterMap (fun e =>
    match e.name, e.bounding_box with
    | some nm, some (x1, y1, x2, y2) =>
      match pilCrop screenshot x1 y1 x2 y2 with
      | Except.error _ => none
      | Except.ok imgc =>
        match pilSave imgc with
        | Except.error _ => none
        | Except.ok _ => some (nm, ⟨sanitize nm, (x1, y1, x2, y2), imgc⟩)
    | _, _ => none)


/-- The sequence of disk writes `element_img.save(filename)` performed by
`extract_templates`, in element order: sanitized key and raster. -/
def templateWrites (screenshot : GrayImage) (elements : List Element) :
    List (List Char × GrayImage) :=
  (extract_templates screenshot elements).map (fun nt => (nt.2.key, nt.2.image))


/-- The on-disk template directory after `extract_templates`: each write
overwrites the previous content of its filename. -/
def diskAfter (screenshot : GrayImage) (elements : List Element) :
    List Char → Option GrayImage :=
  (templateWrites screenshot elements).foldl
    (fun m kv => Function.update m kv.1 (some kv.2)) (fun _ => none)


/-- The 2×2 screenshot used to demonstrate the name collision. -/
def scr2 : GrayImage := ⟨2, 2, fun x y => (x : ℤ) + 2 * (y : ℤ)⟩


/-- Element named `a b`, cropping the left pixel. -/
def elA : Element := ⟨some ['a', ' ', 'b'], some (0, 0, 1, 1)⟩


/-- Element named `a_b` — a different name with the same sanitized key —
cropping the right pixel. -/
def elB : Element := ⟨some ['a', '_', 'b'], some (1, 0, 2, 1)⟩


/-- Raster of `elA`'s crop. -/
def cropA : GrayImage :=
  match pilCrop scr2 0 0 1 1 with
  | Except.ok i => i
  | Except.error _ => ⟨0, 0, fun _ _ => 0⟩


/-- Raster of `elB`'s crop. -/
def cropB : GrayImage :=
  match pilCrop scr2 1 0 2 1 with
  | Except.ok i => i
  | Except.error _ => ⟨0, 0, fun _ _ => 0⟩


/-- The 10×10 screenshot for the out-of-bounds demonstration. -/
def scr10 : GrayImage := ⟨10, 10, fun _ _ => 5⟩


/-- An element whose bounding box `(0,0,20,20)` exceeds the 10×10
screenshot. -/
def elOut : Element := ⟨some ['o'], some (0, 0, 20, 20)⟩


/-- The padded 20×20 raster `PIL.Image.crop` produces for `elOut`. -/
def cropOut : GrayImage :=
  match pilCrop scr10 0 0 20 20 with
  | Except.ok i => i
  | Except.error _ => ⟨0, 0, fun _ _ => 0⟩


/-- The template record `extract_templates` stores for `elOut`. -/
def recOut : TemplateRec := ⟨sanitize ['o'], (0, 0, 20, 20), cropOut⟩


/-- A primitive `pyautogui` call dispatched by `execute_action`. -/
inductive Prim where
  | click (x y : ℤ)
  | doubleClick (x y : ℤ)
  | rightClick (x y : ℤ)
  | moveTo (x y : ℤ)
  | dragTo (x y : ℤ)
  | typewrite (text : String)
  | hotkey (keys : List String)
  | scroll (clicks : ℤ) (x y : ℤ)
  | hscroll (clicks : ℤ) (x y : ℤ)
  | sleepSec (seconds : ℤ)
  | askUser (message : String)
deriving DecidableEq


/-- The `**kwargs` of `execute_action`; absent keys are `none` and the
`kwargs.get(key, default)` defaults are applied at the use sites. -/
structure ActionKwargs where
  end_location : Option (ℤ × ℤ) := none
  text : Option String := none
  keys : Option (List String) := none
  direction : Option String := none
  clicks : Option ℤ := none
  seconds : Option ℤ := none
  message : Option String := none


/-- The primitives each branch of `execute_action` would dispatch before its
`return True`: `none` models falling through to the final `return False`
(location-requiring action without location, drag without both endpoints,
hotkey with empty key list, unrecognized action type).  A scroll with a
location but an unknown direction dispatches nothing yet still returns
`True`, exactly as the source does. -/
def plannedPrims (action_type : String) (location : Option (ℤ × ℤ))
    (kw : ActionKwargs) : Option (List Prim) :=
  if action_type = "click" then
    match location with
    | some loc => some [Prim.click loc.1 loc.2]
    | none => none
  else if action_type = "double_click" then
    match location with
    | some loc => some [Prim.doubleClick loc.1 loc.2]
    | none => none
  else if action_type = "right_click" then
    match location with
    | some loc => some [Prim.rightClick loc.1 loc.2]
    | none => none
  else if action_type = "drag" then
    match location, kw.end_location with
    | some s, some e => some [Prim.moveTo s.1 s.2, Prim.dragTo e.1 e.2]
    | _, _ => none
  else if action_type = "type" then
    match location with
    | some loc => some [Prim.click loc.1 loc.2, Prim.typewrite (kw.text.getD "")]
    | none => none
  else if action_type = "hotkey" then
    match kw.keys.getD [] with
    | [] => none
    | ks => some [Prim.hotkey ks]
  else if action_type = "scroll" then
    match location with
    | some loc =>
      let direction := kw.direction.getD "down"
      let clicks := kw.clicks.getD 3
      if direction = "down" then some [Prim.scroll (-clicks) loc.1 loc.2]
      else if direction = "up" then some [Prim.scroll clicks loc.1 loc.2]
      else if direction = "left" then some [Prim.hscroll (-clicks) loc.1 loc.2]
      else if direction = "right" then some [Prim.hscroll clicks loc.1 loc.2]
      else some []
    | none => none
  else if action_type = "wait" then some [Prim.sleepSec (kw.seconds.getD 5)]
  else if action_type = "finished" then some []
  else if action_type = "call_user" then
    some [Prim.askUser (kw.message.getD "Attention required")]
  else none


/-- Runs the dispatched primitives in order against the external dispatcher
oracle (`false` = the call raises): returns the overall boolean and the
primitives actually attempted; a raise stops the sequence. -/
def runPrims (dispatch : Prim → Bool) : List Prim → Bool × List Prim
  | [] => (true, [])
  | p :: rest =>
    if dispatch p then
      ((runPrims dispatch rest).1, p :: (runPrims dispatch rest).2)
    else (false, [p])


/-- Model of `ActionExecutor.execute_action`: the branch dispatch wrapped in
`try/except` — a raising primitive yields `False` instead of propagating —
and every fall-through path returns `False` having dispatched nothing. -/
def execute_action (dispatch : Prim → Bool) (action_type : String)
    (location : Option (ℤ × ℤ)) (kw : ActionKwargs) : Bool × List Prim :=
  match plannedPrims action_type location kw with
  | none => (false, [])
  | some ps => runPrims dispatch ps


/-- The empty keyword-argument record. -/
def kw0 : ActionKwargs := ⟨none, none, none, none, none, none, none⟩


theorem NCC.firstFrom_eq_some {p : ℕ → Bool} :
    ∀ {fuel k m}, firstFrom p k fuel = some m ↔
      k ≤ m ∧ m < k + fuel ∧ p m = true ∧ ∀ j, k ≤ j → j < m → p j = false := by
  intro fuel
  induction fuel with
  | zero => intro k m; simp only [firstFrom]; constructor
            · intro h; cases h
            · intro h; omega
  | succ f ih =>
    intro k m
    rw [show firstFrom p k (f + 1) = if p k then some k else firstFrom p (k + 1) f from rfl]
    by_cases hk : p k = true
    · rw [if_pos hk]
      constructor
      · intro h
        injection h with h
        subst h
        exact ⟨le_refl _, by omega, hk, fun j h1 h2 => ((by omega : False).elim)⟩
      · rintro ⟨h1, h2, h3, h4⟩
        by_cases hkm : k = m
        · rw [hkm]
        · have hc := h4 k (le_refl _) (by omega)
          rw [hk] at hc
          cases hc
    · rw [if_neg hk, ih]
      constructor
      · rintro ⟨h1, h2, h3, h4⟩
        refine ⟨by omega, by omega, h3, fun j hj1 hj2 => ?_⟩
        by_cases hjk : j = k
        · subst hjk; exact Bool.eq_false_iff.mpr hk
        · exact h4 j (by omega) hj2
      · rintro ⟨h1, h2, h3, h4⟩
        have hkm : k ≠ m := by
          intro h
          subst h
          exact hk h3
        exact ⟨by omega, by omega, h3, fun j hj1 hj2 => h4 j (by omega) hj2⟩


theorem NCC.firstFrom_eq_none {p : ℕ → Bool} :
    ∀ {fuel k}, firstFrom p k fuel = none ↔
      ∀ j, k ≤ j → j < k + fuel → p j = false := by
  intro fuel
  induction fuel with
  | zero => intro k; simp only [firstFrom]; constructor
            · intro _ j h1 h2; omega
            · intro _; trivial
  | succ f ih =>
    intro k
    rw [show firstFrom p k (f + 1) = if p k then some k else firstFrom p (k + 1) f from rfl]
    by_cases hk : p k = true
    · rw [if_pos hk]
      constructor
      · intro h; cases h
      · intro h
        have hc := h k (le_refl _) (by omega)
        rw [hk] at hc
        cases hc
    · rw [if_neg hk, ih]
      constructor
      · intro h j hj1 hj2
        by_cases hjk : j = k
        · subst hjk; exact Bool.eq_false_iff.mpr hk
        · exact h j (by omega) (by omega)
      · intro h j hj1 hj2
        exact h j (by omega) (by omega)


theorem NCC.firstHit_eq_some {p : ℕ → Bool} {n m : ℕ} :
    firstHit p n = some m ↔
      m < n ∧ p m = true ∧ ∀ j, j < m → p j = false := by
  unfold firstHit
  rw [firstFrom_eq_some]
  constructor
  · rintro ⟨_, h2, h3, h4⟩; exact ⟨by omega, h3, fun j hj => h4 j (Nat.zero_le _) hj⟩
  · rintro ⟨h1, h2, h3⟩; exact ⟨Nat.zero_le _, by omega, h2, fun j _ hj => h3 j hj⟩


theorem NCC.firstHit_eq_none {p : ℕ → Bool} {n : ℕ} :
    firstHit p n = none ↔ ∀ j, j < n → p j = false := by
  unfold firstHit
  rw [firstFrom_eq_none]
  constructor
  · intro h j hj; exact h j (Nat.zero_le _) (by omega)
  · intro h j _ hj; exact h j (by omega)


theorem NCC.sum_centered_mul {ι : Type} (s : Finset ι) (f g : ι → ℤ) :
    ∑ i ∈ s, ((s.card : ℤ) * f i - ∑ j ∈ s, f j) * ((s.card : ℤ) * g i - ∑ j ∈ s, g j)
      = (s.card : ℤ) *
        ((s.card : ℤ) * (∑ i ∈ s, f i * g i) - (∑ i ∈ s, f i) * (∑ i ∈ s, g i)) := by
  have h1 : ∀ i ∈ s, ((s.card : ℤ) * f i - ∑ j ∈ s, f j) * ((s.card : ℤ) * g i - ∑ j ∈ s, g j)
      = ((s.card : ℤ) * (s.card : ℤ)) * (f i * g i)
        - ((s.card : ℤ) * (∑ j ∈ s, g j)) * f i
        - ((s.card : ℤ) * (∑ j ∈ s, f j)) * g i
        + (∑ j ∈ s, f j) * (∑ j ∈ s, g j) := by
    intro i _
    ring
  rw [Finset.sum_congr rfl h1, Finset.sum_add_distrib, Finset.sum_sub_distrib,
    Finset.sum_sub_distrib, ← Finset.mul_sum, ← Finset.mul_sum, ← Finset.mul_sum,
    Finset.sum_const, nsmul_eq_mul]
  ring


theorem NCC.sum_centered_sq {ι : Type} (s : Finset ι) (f : ι → ℤ) :
    ∑ i ∈ s, ((s.card : ℤ) * f i - ∑ j ∈ s, f j) ^ 2
      = (s.card : ℤ) * ((s.card : ℤ) * (∑ i ∈ s, f i ^ 2) - (∑ i ∈ s, f i) ^ 2) := by
  have h1 : ∀ i ∈ s, ((s.card : ℤ) * f i - ∑ j ∈ s, f j) ^ 2
      = ((s.card : ℤ) * f i - ∑ j ∈ s, f j) * ((s.card : ℤ) * f i - ∑ j ∈ s, f j) := by
    intro i _
    ring
  rw [Finset.sum_congr rfl h1, sum_centered_mul]
  have h3 : ∑ i ∈ s, f i * f i = ∑ i ∈ s, f i ^ 2 :=
    Finset.sum_congr rfl fun i _ => (sq (f i)).symm
  rw [h3]
  ring


theorem NCC.den_nonneg {ι : Type} (s : Finset ι) (f : ι → ℤ) :
    0 ≤ (s.card : ℤ) * (∑ i ∈ s, f i ^ 2) - (∑ i ∈ s, f i) ^ 2 := by
  rcases Nat.eq_zero_or_pos s.card with h | h
  · have hs : s = ∅ := Finset.card_eq_zero.mp h
    subst hs
    simp
  · have hsq : 0 ≤ ∑ i ∈ s, ((s.card : ℤ) * f i - ∑ j ∈ s, f j) ^ 2 :=
      Finset.sum_nonneg fun i _ => sq_nonneg _
    rw [sum_centered_sq] at hsq
    have hn : (0 : ℤ) < (s.card : ℤ) := by exact_mod_cast h
    nlinarith [hsq, hn]


theorem NCC.cs_scaled {ι : Type} (s : Finset ι) (f g : ι → ℤ) :
    ((s.card : ℤ) * (∑ i ∈ s, f i * g i) - (∑ i ∈ s, f i) * (∑ i ∈ s, g i)) ^ 2
      ≤ ((s.card : ℤ) * (∑ i ∈ s, f i ^ 2) - (∑ i ∈ s, f i) ^ 2)
        * ((s.card : ℤ) * (∑ i ∈ s, g i ^ 2) - (∑ i ∈ s, g i) ^ 2) := by
  rcases Nat.eq_zero_or_pos s.card with h | h
  · have hs : s = ∅ := Finset.card_eq_zero.mp h
    subst hs
    simp
  · have key := Finset.sum_mul_sq_le_sq_mul_sq s
      (fun i => (s.card : ℤ) * f i - ∑ j ∈ s, f j)
      (fun i => (s.card : ℤ) * g i - ∑ j ∈ s, g j)
    rw [sum_centered_mul, sum_centered_sq, sum_centered_sq] at key
    have hn : (0 : ℤ) < (s.card : ℤ) := by exact_mod_cast h
    have hn2 : (0 : ℤ) < (s.card : ℤ) ^ 2 := by positivity
    have key2 : (s.card : ℤ) ^ 2 *
        (((s.card : ℤ) * (∑ i ∈ s, f i * g i) - (∑ i ∈ s, f i) * (∑ i ∈ s, g i)) ^ 2)
        ≤ (s.card : ℤ) ^ 2 *
          (((s.card : ℤ) * (∑ i ∈ s, f i ^ 2) - (∑ i ∈ s, f i) ^ 2)
            * ((s.card : ℤ) * (∑ i ∈ s, g i ^ 2) - (∑ i ∈ s, g i) ^ 2)) := by
      nlinarith [key]
    exact le_of_mul_le_mul_left key2 hn2


theorem NCC.card_idx (tpl : GrayImage) : (idx tpl).card = area tpl := by
  rw [idx, area, Finset.card_product, Finset.card_range, Finset.card_range]
  exact Nat.mul_comm _ _


theorem NCC.ccNum_sq_le (img tpl : GrayImage) (x y : ℕ) :
    (ccNum img tpl x y) ^ 2 ≤ ccDenT tpl * ccDenW img tpl x y := by
  have h := cs_scaled (idx tpl) (fun p => tpl.pix p.2 p.1)
    (fun p => img.pix (x + p.2) (y + p.1))
  rw [card_idx] at h
  simpa only [ccNum, ccDenT, ccDenW, dotTW, sumT, sumW, sqSumT, sqSumW] using h


theorem NCC.ccDenT_nonneg (tpl : GrayImage) : 0 ≤ ccDenT tpl := by
  have h := den_nonneg (idx tpl) (fun p => tpl.pix p.2 p.1)
  rw [card_idx] at h
  simpa only [ccDenT, sqSumT, sumT] using h


theorem NCC.ccDenW_nonneg (img tpl : GrayImage) (x y : ℕ) : 0 ≤ ccDenW img tpl x y := by
  have h := den_nonneg (idx tpl) (fun p => img.pix (x + p.2) (y + p.1))
  rw [card_idx] at h
  simpa only [ccDenW, sqSumW, sumW] using h


theorem NCC.int_le_iff_q {c : ℚ} {d n : ℤ} :
    c.num ^ 2 * d ≤ (c.den : ℤ) ^ 2 * n ^ 2 ↔
      c ^ 2 * ((d : ℤ) : ℚ) ≤ ((n : ℤ) : ℚ) ^ 2 := by
  have hden : (0 : ℚ) < (c.den : ℚ) := by exact_mod_cast c.den_pos
  have hc : c = (c.num : ℚ) / (c.den : ℚ) := (Rat.num_div_den c).symm
  constructor
  · intro h
    rw [hc, div_pow, div_mul_eq_mul_div, div_le_iff₀ (by positivity)]
    have hq : ((c.num : ℚ)) ^ 2 * ((d : ℤ) : ℚ) ≤ ((c.den : ℚ)) ^ 2 * ((n : ℤ) : ℚ) ^ 2 := by
      exact_mod_cast h
    linarith
  · intro h
    rw [hc, div_pow, div_mul_eq_mul_div, div_le_iff₀ (by positivity)] at h
    have hq : ((c.num : ℚ)) ^ 2 * ((d : ℤ) : ℚ) ≤ ((c.den : ℚ)) ^ 2 * ((n : ℤ) : ℚ) ^ 2 := by
      linarith
    exact_mod_cast hq


theorem NCC.int_ge_iff_q {c : ℚ} {d n : ℤ} :
    (c.den : ℤ) ^ 2 * n ^ 2 ≤ c.num ^ 2 * d ↔
      ((n : ℤ) : ℚ) ^ 2 ≤ c ^ 2 * ((d : ℤ) : ℚ) := by
  have hden : (0 : ℚ) < (c.den : ℚ) := by exact_mod_cast c.den_pos
  have hc : c = (c.num : ℚ) / (c.den : ℚ) := (Rat.num_div_den c).symm
  constructor
  · intro h
    rw [hc, div_pow, div_mul_eq_mul_div, le_div_iff₀ (by positivity)]
    have hq : ((c.den : ℚ)) ^ 2 * ((n : ℤ) : ℚ) ^ 2 ≤ ((c.num : ℚ)) ^ 2 * ((d : ℤ) : ℚ) := by
      exact_mod_cast h
    linarith
  · intro h
    rw [hc, div_pow, div_mul_eq_mul_div, le_div_iff₀ (by positivity)] at h
    have hq : ((c.den : ℚ)) ^ 2 * ((n : ℤ) : ℚ) ^ 2 ≤ ((c.num : ℚ)) ^ 2 * ((d : ℤ) : ℚ) := by
      linarith
    exact_mod_cast hq


theorem NCC.num_neg_iff {c : ℚ} : c.num < 0 ↔ c < 0 := by
  rw [← not_le, ← not_le, Rat.num_nonneg]


/-- The integer threshold test restated over `ℚ`: it is exactly the
squared form of `score ≥ c` for cells with positive variance product. -/
theorem NCC.meets_iff {c : ℚ} {img tpl : GrayImage} {x y : ℕ} :
    meets c img tpl x y = true ↔
      0 < ccDenT tpl * ccDenW img tpl x y ∧
      ((0 ≤ c ∧ 0 ≤ ccNum img tpl x y ∧
          c ^ 2 * ((ccDenT tpl * ccDenW img tpl x y : ℤ) : ℚ)
            ≤ ((ccNum img tpl x y : ℤ) : ℚ) ^ 2) ∨
       (c < 0 ∧ (0 ≤ ccNum img tpl x y ∨
          ((ccNum img tpl x y : ℤ) : ℚ) ^ 2
            ≤ c ^ 2 * ((ccDenT tpl * ccDenW img tpl x y : ℤ) : ℚ)))) := by
  rw [meets, decide_eq_true_eq]
  rw [int_le_iff_q, int_ge_iff_q, Rat.num_nonneg, num_neg_iff]


theorem NCC.sumW_embed {img tpl : GrayImage} {dx dy : ℕ} (h : embedsAt img tpl dx dy) :
    sumW img tpl dx dy = sumT tpl := by
  refine Finset.sum_congr rfl fun p hp => ?_
  rw [idx, Finset.mem_product, Finset.mem_range, Finset.mem_range] at hp
  exact h p.2 hp.2 p.1 hp.1


theorem NCC.sqSumW_embed {img tpl : GrayImage} {dx dy : ℕ} (h : embedsAt img tpl dx dy) :
    sqSumW img tpl dx dy = sqSumT tpl := by
  refine Finset.sum_congr rfl fun p hp => ?_
  rw [idx, Finset.mem_product, Finset.mem_range, Finset.mem_range] at hp
  rw [h p.2 hp.2 p.1 hp.1]


theorem NCC.dotTW_embed {img tpl : GrayImage} {dx dy : ℕ} (h : embedsAt img tpl dx dy) :
    dotTW img tpl dx dy = sqSumT tpl := by
  refine Finset.sum_congr rfl fun p hp => ?_
  rw [idx, Finset.mem_product, Finset.mem_range, Finset.mem_range] at hp
  rw [h p.2 hp.2 p.1 hp.1, sq]


theorem NCC.ccNum_embed {img tpl : GrayImage} {dx dy : ℕ} (h : embedsAt img tpl dx dy) :
    ccNum img tpl dx dy = ccDenT tpl := by
  rw [ccNum, ccDenT, dotTW_embed h, sumW_embed h, sq]


theorem NCC.ccDenW_embed {img tpl : GrayImage} {dx dy : ℕ} (h : embedsAt img tpl dx dy) :
    ccDenW img tpl dx dy = ccDenT tpl := by
  rw [ccDenW, ccDenT, sqSumW_embed h, sumW_embed h]


/-- At an exact re-embedding the correlation score is exactly `1`, provided
the template is not constant (positive variance). -/
theorem NCC.score_embed {img tpl : GrayImage} {dx dy : ℕ}
    (h : embedsAt img tpl dx dy) (hd : 0 < ccDenT tpl) :
    score img tpl dx dy = 1 := by
  rw [score, ccNum_embed h, ccDenW_embed h]
  have h1 : ((ccDenT tpl * ccDenT tpl : ℤ) : ℝ) = ((ccDenT tpl : ℤ) : ℝ) ^ 2 := by
    push_cast
    ring
  rw [h1, Real.sqrt_sq (by exact_mod_cast hd.le)]
  exact div_self (by exact_mod_cast hd.ne')


/-- At an exact re-embedding the threshold test passes for every threshold
`c ≤ 1`, provided the template is not constant. -/
theorem NCC.meets_embed {img tpl : GrayImage} {dx dy : ℕ} {c : ℚ}
    (h : embedsAt img tpl dx dy) (hd : 0 < ccDenT tpl) (hc : c ≤ 1) :
    meets c img tpl dx dy = true := by
  rw [meets_iff]
  simp only [ccNum_embed h, ccDenW_embed h]
  refine ⟨mul_pos hd hd, ?_⟩
  rcases le_or_lt 0 c with h0 | h0
  · refine Or.inl ⟨h0, hd.le, ?_⟩
    have hdq : (0 : ℚ) ≤ ((ccDenT tpl : ℤ) : ℚ) := by exact_mod_cast hd.le
    have hc2 : c ^ 2 ≤ 1 := by nlinarith
    have : ((ccDenT tpl * ccDenT tpl : ℤ) : ℚ) = ((ccDenT tpl : ℤ) : ℚ) ^ 2 := by
      push_cast
      ring
    rw [this]
    nlinarith [sq_nonneg ((ccDenT tpl : ℤ) : ℚ)]
  · exact Or.inr ⟨h0, Or.inl hd.le⟩


/-- Cauchy–Schwarz: the correlation score never exceeds `1`. -/
theorem NCC.score_le_one (img tpl : GrayImage) (x y : ℕ) : score img tpl x y ≤ 1 := by
  rcases eq_or_lt_of_le (mul_nonneg (ccDenT_nonneg tpl) (ccDenW_nonneg img tpl x y))
    with h | h
  · rw [score, ← h]
    simp
  · have hD : (0 : ℝ) < ((ccDenT tpl * ccDenW img tpl x y : ℤ) : ℝ) := by exact_mod_cast h
    have hcs : ((ccNum img tpl x y : ℤ) : ℝ) ^ 2
        ≤ ((ccDenT tpl * ccDenW img tpl x y : ℤ) : ℝ) := by
      have := ccNum_sq_le img tpl x y
      push_cast
      exact_mod_cast this
    rw [score, div_le_one (Real.sqrt_pos.mpr hD)]
    calc ((ccNum img tpl x y : ℤ) : ℝ)
        ≤ |((ccNum img tpl x y : ℤ) : ℝ)| := le_abs_self _
      _ = Real.sqrt (((ccNum img tpl x y : ℤ) : ℝ) ^ 2) := (Real.sqrt_sq_eq_abs _).symm
      _ ≤ Real.sqrt ((ccDenT tpl * ccDenW img tpl x y : ℤ) : ℝ) := Real.sqrt_le_sqrt hcs


/-- Cauchy–Schwarz: the correlation score is never below `-1`. -/
theorem NCC.neg_one_le_score (img tpl : GrayImage) (x y : ℕ) : -1 ≤ score img tpl x y := by
  rcases eq_or_lt_of_le (mul_nonneg (ccDenT_nonneg tpl) (ccDenW_nonneg img tpl x y))
    with h | h
  · rw [score, ← h]
    simp
  · have hD : (0 : ℝ) < ((ccDenT tpl * ccDenW img tpl x y : ℤ) : ℝ) := by exact_mod_cast h
    have hcs : ((ccNum img tpl x y : ℤ) : ℝ) ^ 2
        ≤ ((ccDenT tpl * ccDenW img tpl x y : ℤ) : ℝ) := by
      exact_mod_cast ccNum_sq_le img tpl x y
    rw [score, le_div_iff₀ (Real.sqrt_pos.mpr hD)]
    have habs : |((ccNum img tpl x y : ℤ) : ℝ)|
        ≤ Real.sqrt ((ccDenT tpl * ccDenW img tpl x y : ℤ) : ℝ) := by
      calc |((ccNum img tpl x y : ℤ) : ℝ)|
          = Real.sqrt (((ccNum img tpl x y : ℤ) : ℝ) ^ 2) := (Real.sqrt_sq_eq_abs _).symm
        _ ≤ _ := Real.sqrt_le_sqrt hcs
    have := neg_abs_le ((ccNum img tpl x y : ℤ) : ℝ)
    nlinarith [Real.sqrt_nonneg ((ccDenT tpl * ccDenW img tpl x y : ℤ) : ℝ)]


/-- Soundness of the decidable threshold test: a qualifying cell really has
score at least the threshold. -/
theorem NCC.le_score_of_meets {c : ℚ} {img tpl : GrayImage} {x y : ℕ}
    (h : meets c img tpl x y = true) : (c : ℝ) ≤ score img tpl x y := by
  rw [meets_iff] at h
  obtain ⟨hd, hcase⟩ := h
  have hD : (0 : ℝ) < ((ccDenT tpl * ccDenW img tpl x y : ℤ) : ℝ) := by exact_mod_cast hd
  have hsq : (0 : ℝ) < Real.sqrt ((ccDenT tpl * ccDenW img tpl x y : ℤ) : ℝ) :=
    Real.sqrt_pos.mpr hD
  rw [score, le_div_iff₀ hsq]
  rcases hcase with ⟨hc, hn, hle⟩ | ⟨hc, hor⟩
  · -- nonnegative threshold: compare squares
    have hcR : (0 : ℝ) ≤ (c : ℝ) := by exact_mod_cast hc
    have hnR : (0 : ℝ) ≤ ((ccNum img tpl x y : ℤ) : ℝ) := by exact_mod_cast hn
    have hleR : (c : ℝ) ^ 2 * ((ccDenT tpl * ccDenW img tpl x y : ℤ) : ℝ)
        ≤ ((ccNum img tpl x y : ℤ) : ℝ) ^ 2 := by
      have := hle
      push_cast at this ⊢
      exact_mod_cast this
    calc (c : ℝ) * Real.sqrt ((ccDenT tpl * ccDenW img tpl x y : ℤ) : ℝ)
        = Real.sqrt ((c : ℝ) ^ 2 * ((ccDenT tpl * ccDenW img tpl x y : ℤ) : ℝ)) := by
          rw [Real.sqrt_mul (sq_nonneg _), Real.sqrt_sq hcR]
      _ ≤ Real.sqrt (((ccNum img tpl x y : ℤ) : ℝ) ^ 2) := Real.sqrt_le_sqrt hleR
      _ = |((ccNum img tpl x y : ℤ) : ℝ)| := Real.sqrt_sq_eq_abs _
      _ = ((ccNum img tpl x y : ℤ) : ℝ) := abs_of_nonneg hnR
  · -- negative threshold
    have hcR : (c : ℝ) < 0 := by exact_mod_cast hc
    rcases hor with hn | hle
    · have hnR : (0 : ℝ) ≤ ((ccNum img tpl x y : ℤ) : ℝ) := by exact_mod_cast hn
      nlinarith [hsq]
    · have hleR : ((ccNum img tpl x y : ℤ) : ℝ) ^ 2
          ≤ (c : ℝ) ^ 2 * ((ccDenT tpl * ccDenW img tpl x y : ℤ) : ℝ) := by
        have := hle
        push_cast at this ⊢
        exact_mod_cast this
      have habs : |((ccNum img tpl x y : ℤ) : ℝ)|
          ≤ |(c : ℝ)| * Real.sqrt ((ccDenT tpl * ccDenW img tpl x y : ℤ) : ℝ) := by
        calc |((ccNum img tpl x y : ℤ) : ℝ)|
            = Real.sqrt (((ccNum img tpl x y : ℤ) : ℝ) ^ 2) := (Real.sqrt_sq_eq_abs _).symm
          _ ≤ Real.sqrt ((c : ℝ) ^ 2 * ((ccDenT tpl * ccDenW img tpl x y : ℤ) : ℝ)) :=
              Real.sqrt_le_sqrt hleR
          _ = |(c : ℝ)| * Real.sqrt ((ccDenT tpl * ccDenW img tpl x y : ℤ) : ℝ) := by
              rw [Real.sqrt_mul (sq_nonneg _), Real.sqrt_sq_eq_abs]
      have h1 := neg_abs_le ((ccNum img tpl x y : ℤ) : ℝ)
      have h2 : |(c : ℝ)| = -(c : ℝ) := abs_of_neg hcR
      nlinarith


theorem resW_pos (img tpl : GrayImage) : 0 < resW img tpl := Nat.succ_pos _


theorem resH_pos (img tpl : GrayImage) : 0 < resH img tpl := Nat.succ_pos _


theorem linIdx_mod {x y W : ℕ} (hx : x < W) : (y * W + x) % W = x := by
  rw [Nat.add_comm, Nat.add_mul_mod_self_right]
  exact Nat.mod_eq_of_lt hx


theorem linIdx_div {x y W : ℕ} (hx : x < W) : (y * W + x) / W = y := by
  rw [Nat.add_comm, Nat.add_mul_div_right _ _ (by omega : 0 < W), Nat.div_eq_of_lt hx]
  omega


theorem linIdx_lt {x y W H : ℕ} (hx : x < W) (hy : y < H) : y * W + x < W * H := by
  calc y * W + x < y * W + W := by omega
    _ = (y + 1) * W := by ring
    _ ≤ H * W := Nat.mul_le_mul_right W hy
    _ = W * H := Nat.mul_comm _ _


theorem rowBefore_lin {x y x' y' W : ℕ} (hx' : x' < W)
    (h : rowBefore (x', y') (x, y)) : y' * W + x' < y * W + x := by
  rcases h with h | ⟨h1, h2⟩
  · simp only at h
    calc y' * W + x' < y' * W + W := by omega
      _ = (y' + 1) * W := by ring
      _ ≤ y * W := Nat.mul_le_mul_right W h
      _ ≤ y * W + x := by omega
  · simp only at h1 h2
    subst h1
    omega


/-- Full characterization of a successful single-template match: the hit is
the first qualifying cell of the score map in row-major order, and the
returned entry is built from it. -/
theorem findTemplate_some_iff {img tpl : GrayImage} {c : ℚ} {r : MatchResult} :
    findTemplate img ⟨some tpl⟩ c = some r ↔
      tpl.width ≤ img.width ∧ tpl.height ≤ img.height ∧
      ∃ x y, x < resW img tpl ∧ y < resH img tpl ∧
        NCC.meets c img tpl x y = true ∧
        (∀ x' y', x' < resW img tpl → y' < resH img tpl →
          rowBefore (x', y') (x, y) → NCC.meets c img tpl x' y' = false) ∧
        r = mkResult tpl (x, y) := by
  simp only [findTemplate, searchTemplate]
  by_cases hfit : img.width < tpl.width ∨ img.height < tpl.height
  · rw [if_pos hfit]
    constructor
    · intro h
      cases h
    · rintro ⟨h1, h2, -⟩
      omega
  · rw [if_neg hfit]
    push_neg at hfit
    constructor
    · intro h
      rcases hh : NCC.firstHit
          (fun k => NCC.meets c img tpl (k % resW img tpl) (k / resW img tpl))
          (resW img tpl * resH img tpl) with _ | k
      · rw [hh] at h
        cases h
      · rw [hh] at h
        simp only [Option.map_some'] at h
        injection h with h
        rw [NCC.firstHit_eq_some] at hh
        obtain ⟨hk, hmeets, hmin⟩ := hh
        refine ⟨hfit.1, hfit.2, k % resW img tpl, k / resW img tpl,
          Nat.mod_lt _ (resW_pos img tpl), ?_, hmeets, ?_, h.symm⟩
        · exact Nat.div_lt_of_lt_mul (by omega)
        · intro x' y' hx' hy' hbefore
          have hdecomp : k = k / resW img tpl * resW img tpl + k % resW img tpl := by
            have hdm := Nat.div_add_mod k (resW img tpl)
            rw [Nat.mul_comm] at hdm
            omega
          have hlt : y' * resW img tpl + x' < k := by
            rw [hdecomp]
            exact rowBefore_lin hx' hbefore
          have := hmin (y' * resW img tpl + x') hlt
          rwa [linIdx_mod hx', linIdx_div hx'] at this
    · rintro ⟨-, -, x, y, hx, hy, hmeets, hmin, hr⟩
      have hfirst : NCC.firstHit
          (fun k => NCC.meets c img tpl (k % resW img tpl) (k / resW img tpl))
          (resW img tpl * resH img tpl) = some (y * resW img tpl + x) := by
        rw [NCC.firstHit_eq_some]
        refine ⟨linIdx_lt hx hy, ?_, ?_⟩
        · rwa [linIdx_mod hx, linIdx_div hx]
        · intro j hj
          have hjx : j % resW img tpl < resW img tpl := Nat.mod_lt _ (resW_pos img tpl)
          have hjy : j / resW img tpl < resH img tpl :=
            Nat.div_lt_of_lt_mul (lt_trans hj (linIdx_lt hx hy))
          refine hmin _ _ hjx hjy ?_
          rw [rowBefore]
          simp only
          rcases Nat.lt_trichotomy (j / resW img tpl) y with hlt | heq | hgt
          · exact Or.inl hlt
          · refine Or.inr ⟨heq, ?_⟩
            have hdm : resW img tpl * (j / resW img tpl) + j % resW img tpl = j :=
              Nat.div_add_mod j (resW img tpl)
            rw [heq, Nat.mul_comm] at hdm
            omega
          · exfalso
            have h1 : (y + 1) * resW img tpl ≤ j / resW img tpl * resW img tpl :=
              Nat.mul_le_mul_right _ hgt
            have h2 : j / resW img tpl * resW img tpl ≤ j := Nat.div_mul_le_self j _
            have h3 : (y + 1) * resW img tpl = y * resW img tpl + resW img tpl := by
              ring
            omega
      rw [hfirst]
      simp only [Option.map_some']
      rw [hr, linIdx_mod hx, linIdx_div hx]


theorem c45_eq : c45 = 4 / 5 := by
  rw [c45, Rat.mk'_eq_divInt, Rat.divInt_eq_div]
  norm_num


/-- C1 (amended): whenever the template's exact pixel content is re-embedded
unmodified at offset `(dx, dy)` of the live frame, the template has positive
variance, the threshold is at most 1, and no score-map cell strictly earlier
in row-major order meets the threshold (in particular whenever the embedded
occurrence is the only qualifying region), `find_templates_on_screen`'s
per-template matcher returns exactly the entry built from `(dx, dy)`:
center `(dx + w/2, dy + h/2)` and correlation score exactly 1 — hence at
least any near-1 bound.  In particular a 40×40 template (bounding box
`(100,100,140,140)`) re-embedded at `(120, 100)` (the frame content shifted
by `(20, 0)`) yields center `(140, 120)`. -/
theorem embedded_template_match (img tpl : GrayImage) (c : ℚ) (dx dy : ℕ)
    (hembed : embedsAt img tpl dx dy)
    (hxfit : dx + tpl.width ≤ img.width) (hyfit : dy + tpl.height ≤ img.height)
    (hvar : 0 < NCC.ccDenT tpl) (hc : c ≤ 1)
    (hfirst : ∀ x', x' < resW img tpl → ∀ y', y' < resH img tpl →
      rowBefore (x', y') (dx, dy) → NCC.meets c img tpl x' y' = false) :
    findTemplate img ⟨some tpl⟩ c = some (mkResult tpl (dx, dy)) ∧
    (mkResult tpl (dx, dy)).center = (dx + tpl.width / 2, dy + tpl.height / 2) ∧
    NCC.score img tpl dx dy = 1 ∧
    (tpl.width = 40 → tpl.height = 40 → dx = 120 → dy = 100 →
      (mkResult tpl (dx, dy)).center = (140, 120)) := by
  refine ⟨?_, rfl, NCC.score_embed hembed hvar, ?_⟩
  · rw [findTemplate_some_iff]
    refine ⟨by omega, by omega, dx, dy, ?_, ?_,
      NCC.meets_embed hembed hvar hc, fun x' y' hx' hy' => hfirst x' hx' y' hy', rfl⟩
    · rw [resW]
      omega
    · rw [resH]
      omega
  · intro hw hh hdx hdy
    subst hdx
    subst hdy
    rw [mkResult, hw, hh]


/-- C1 as literally stated is false on the code: in the frame
`imgA = [0,1,0,1]` the template `tplA = [0,1]` is re-embedded unmodified at
offset `(2, 0)`, yet the matcher at threshold 0.8 returns center `(1, 0)`
(the copy at offset 0 is scanned first), not `(2 + 2/2, 0 + 1/2) = (3, 0)`
as the claim requires for the offset `(2, 0)`. -/
theorem embedded_template_match_cex :
    embedsAt imgA tplA 2 0 ∧
    2 + tplA.width ≤ imgA.width ∧ 0 + tplA.height ≤ imgA.height ∧
    findTemplate imgA ⟨some tplA⟩ c45 = some (mkResult tplA (0, 0)) ∧
    (mkResult tplA (0, 0)).center = (1, 0) ∧
    (1, 0) ≠ (2 + tplA.width / 2, 0 + tplA.height / 2) := by
  decide


/-- Witness for the amended C1 at a concrete input: `tplA = [0,1]` occurs in
`imgB = [1,1,0,1]` exactly at offset `(2, 0)`; no earlier cell qualifies,
and the matcher returns the entry for `(2, 0)`. -/
theorem embedded_template_match_wit :
    findTemplate imgB ⟨some tplA⟩ c45 = some (mkResult tplA (2, 0)) ∧
    (mkResult tplA (2, 0)).center = (2 + tplA.width / 2, 0 + tplA.height / 2) ∧
    NCC.score imgB tplA 2 0 = 1 ∧
    (tplA.width = 40 → tplA.height = 40 → 2 = 120 → 0 = 100 →
      (mkResult tplA (2, 0)).center = (140, 120)) :=
  embedded_template_match imgB tplA c45 2 0 (by decide) (by decide) (by decide)
    (by decide) (by decide)
    (by decide)


theorem findTemplate_isSome_of_meets {img tpl : GrayImage} {c : ℚ} {x y : ℕ}
    (hfw : tpl.width ≤ img.width) (hfh : tpl.height ≤ img.height)
    (hx : x < resW img tpl) (hy : y < resH img tpl)
    (hm : NCC.meets c img tpl x y = true) :
    ∃ r, findTemplate img ⟨some tpl⟩ c = some r := by
  simp only [findTemplate, searchTemplate,
    if_neg (by omega : ¬(img.width < tpl.width ∨ img.height < tpl.height))]
  rcases hh : NCC.firstHit
      (fun k => NCC.meets c img tpl (k % resW img tpl) (k / resW img tpl))
      (resW img tpl * resH img tpl) with _ | k
  · exfalso
    rw [NCC.firstHit_eq_none] at hh
    have hcell := hh (y * resW img tpl + x) (linIdx_lt hx hy)
    rw [linIdx_mod hx, linIdx_div hx] at hcell
    rw [hm] at hcell
    cases hcell
  · exact ⟨mkResult tpl (k % resW img tpl, k / resW img tpl), rfl⟩


/-- C2: when several score-map cells qualify, the matcher returns precisely
the first qualifying cell in row-major (top-to-bottom, then left-to-right)
scan order — characterized below as "the returned cell qualifies and every
strictly earlier cell fails the threshold" — not the globally best-scoring
cell; and whenever some cell qualifies, a match is returned.  The embedding
is a pure function of its inputs, so repeated runs on the same input
necessarily return the same entry. -/
theorem first_qualifying_cell_returned (img tpl : GrayImage) (c : ℚ) :
    (∀ r, findTemplate img ⟨some tpl⟩ c = some r →
      r.cell.1 < resW img tpl ∧ r.cell.2 < resH img tpl ∧
      NCC.meets c img tpl r.cell.1 r.cell.2 = true ∧
      (∀ x' y', x' < resW img tpl → y' < resH img tpl →
        rowBefore (x', y') r.cell → NCC.meets c img tpl x' y' = false) ∧
      r = mkResult tpl r.cell) ∧
    (∀ x y, tpl.width ≤ img.width → tpl.height ≤ img.height →
      x < resW img tpl → y < resH img tpl → NCC.meets c img tpl x y = true →
      ∃ r, findTemplate img ⟨some tpl⟩ c = some r) := by
  constructor
  · intro r h
    rw [findTemplate_some_iff] at h
    obtain ⟨-, -, x, y, hx, hy, hm, hmin, hr⟩ := h
    subst hr
    exact ⟨hx, hy, hm, hmin, rfl⟩
  · intro x y hfw hfh hx hy hm
    exact findTemplate_isSome_of_meets hfw hfh hx hy hm


/-- Witness for C2 at a concrete input with two disjoint qualifying regions:
in `imgC = [0,1,2,0,1,1]` both cell `(0,0)` (score `√3/2 ≈ 0.866`) and cell
`(3,0)` (exact copy, score 1) exceed threshold 0.8 for `tplB = [0,1,1]`; the
matcher deterministically returns the row-major-first cell `(0,0)`, not the
better-scoring `(3,0)`. -/
theorem first_qualifying_cell_returned_wit :
    (∃ r, findTemplate imgC ⟨some tplB⟩ c45 = some r) ∧
    NCC.meets c45 imgC tplB 0 0 = true ∧
    NCC.meets c45 imgC tplB 3 0 = true ∧
    findTemplate imgC ⟨some tplB⟩ c45 = some (mkResult tplB (0, 0)) :=
  ⟨(first_qualifying_cell_returned imgC tplB c45).2 0 0 (by decide) (by decide)
      (by decide) (by decide) (by decide),
    by decide, by decide, by decide⟩


/-- C3: every returned entry is built from the winning score-map cell
`(px, py)` and the template dimensions as `center = (px + w/2, py + h/2)`
(integer floor division) and `box = (px, py, px+w, py+h)`; its confidence is
the score-map value read at the winning cell (not recomputed) and lies in
`[threshold, 1]`. -/
theorem match_entry_shape (img tpl : GrayImage) (c : ℚ) (r : MatchResult)
    (h : findTemplate img ⟨some tpl⟩ c = some r) :
    r.center = (r.cell.1 + tpl.width / 2, r.cell.2 + tpl.height / 2) ∧
    r.box = (r.cell.1, r.cell.2, r.cell.1 + tpl.width, r.cell.2 + tpl.height) ∧
    confidence img tpl r = NCC.score img tpl r.cell.1 r.cell.2 ∧
    (c : ℝ) ≤ confidence img tpl r ∧ confidence img tpl r ≤ 1 := by
  rw [findTemplate_some_iff] at h
  obtain ⟨-, -, x, y, -, -, hm, -, hr⟩ := h
  subst hr
  exact ⟨rfl, rfl, rfl, NCC.le_score_of_meets hm, NCC.score_le_one img tpl x y⟩


/-- Witness for C3 at a concrete successful match. -/
theorem match_entry_shape_wit :
    (mkResult tplB (0, 0)).center = (0 + tplB.width / 2, 0 + tplB.height / 2) ∧
    (mkResult tplB (0, 0)).box = (0, 0, 0 + tplB.width, 0 + tplB.height) ∧
    confidence imgC tplB (mkResult tplB (0, 0)) = NCC.score imgC tplB 0 0 ∧
    (c45 : ℝ) ≤ confidence imgC tplB (mkResult tplB (0, 0)) ∧
    confidence imgC tplB (mkResult tplB (0, 0)) ≤ 1 :=
  match_entry_shape imgC tplB c45 (mkResult tplB (0, 0)) (by decide)


theorem assoc_nodup_eq {α β : Type} {l : List (α × β)} (h : (l.map Prod.fst).Nodup)
    {k : α} {a b : β} (ha : (k, a) ∈ l) (hb : (k, b) ∈ l) : a = b := by
  induction l with
  | nil => cases ha
  | cons hd tl ih =>
    rw [List.map_cons, List.nodup_cons] at h
    rcases List.mem_cons.mp ha with ha' | ha' <;> rcases List.mem_cons.mp hb with hb' | hb'
    · rw [← ha'] at hb'
      exact congrArg Prod.snd hb'.symm
    · exfalso
      apply h.1
      have hmemb : k ∈ List.map Prod.fst tl := List.mem_map.mpr ⟨(k, b), hb', rfl⟩
      rw [← ha']
      exact hmemb
    · exfalso
      apply h.1
      have hmema : k ∈ List.map Prod.fst tl := List.mem_map.mpr ⟨(k, a), ha', rfl⟩
      rw [← hb']
      exact hmema
    · exact ih h.2 ha' hb'


/-- C4: a live image strictly smaller than the template in either dimension
makes `cv2.matchTemplate` raise; the loop's `try/except` catches the
exception, so the template yields no entry (its name is absent from the
returned mapping) and nothing propagates to the caller. -/
theorem small_live_image_no_match (img tpl : GrayImage) (info : TemplateInfo)
    (name : String) (templates : List (String × TemplateInfo)) (c : ℚ)
    (hfile : info.file = some tpl)
    (hsmall : img.width < tpl.width ∨ img.height < tpl.height)
    (hmem : (name, info) ∈ templates)
    (hnodup : (templates.map Prod.fst).Nodup) :
    searchTemplate img tpl c = Except.error () ∧
    findTemplate img info c = none ∧
    ∀ r, (name, r) ∉ find_templates_on_screen img templates c := by
  have hsearch : searchTemplate img tpl c = Except.error () := by
    rw [searchTemplate, if_pos hsmall]
  have hfind : findTemplate img info c = none := by
    simp only [findTemplate, hfile, hsearch]
  refine ⟨hsearch, hfind, fun r hr => ?_⟩
  rw [find_templates_on_screen, List.mem_filterMap] at hr
  obtain ⟨nt, hnt, hmap⟩ := hr
  rcases hres : findTemplate img nt.2 c with _ | r'
  · rw [hres] at hmap
    cases hmap
  · rw [hres] at hmap
    simp only [Option.map_some'] at hmap
    injection hmap with hmap
    have h1 : nt.1 = name := congrArg Prod.fst hmap
    have h2 : nt.2 = info := by
      refine assoc_nodup_eq hnodup ?_ hmem
      rw [← h1]
      exact hnt
    rw [h2, hfind] at hres
    cases hres


/-- Witness for C4: the 4×1 frame `imgA` is smaller than the 3×3 template
in height, so the batch result for the single-entry dictionary is empty. -/
theorem small_live_image_no_match_wit :
    searchTemplate imgA tplBig c45 = Except.error () ∧
    findTemplate imgA infoBig c45 = none ∧
    ∀ r, ("big", r) ∉ find_templates_on_screen imgA [("big", infoBig)] c45 :=
  small_live_image_no_match imgA tplBig infoBig "big" [("big", infoBig)] c45 rfl
    (by decide) (List.mem_singleton.mpr rfl) (by simp)


/-- C5: batch matching skips each unloadable template (`cv2.imread` gives
`None`) and still attempts every other entry: with `M` of the `N` templates
missing, the result has at most `N − M` entries; every returned entry stems
from a loadable template whose match succeeded; and a loadable, matching
template always contributes its entry, regardless of the other entries —
one missing file never aborts the batch. -/
theorem batch_skips_missing (img : GrayImage) (c : ℚ)
    (templates : List (String × TemplateInfo)) :
    (find_templates_on_screen img templates c).length
      ≤ templates.length - templates.countP (fun t => t.2.file.isNone) ∧
    (∀ name r, (name, r) ∈ find_templates_on_screen img templates c →
      ∃ info tpl, (name, info) ∈ templates ∧ info.file = some tpl ∧
        findTemplate img info c = some r) ∧
    (∀ name info r, (name, info) ∈ templates →
      findTemplate img info c = some r →
      (name, r) ∈ find_templates_on_screen img templates c) := by
  refine ⟨?_, ?_, ?_⟩
  · induction templates with
    | nil => simp [find_templates_on_screen]
    | cons hd tl ih =>
      rw [find_templates_on_screen] at ih ⊢
      rw [List.filterMap_cons, List.countP_cons, List.length_cons]
      have hcle : tl.countP (fun t => t.2.file.isNone) ≤ tl.length :=
        List.countP_le_length _
      rcases hft : (findTemplate img hd.2 c).map (fun r => (hd.1, r)) with _ | pr
      · by_cases hp : hd.2.file.isNone = true <;> simp only [hp] <;> simp <;> omega
      · have hpf : hd.2.file.isNone = false := by
          rcases hf : hd.2.file with _ | tpl
          · exfalso
            have : findTemplate img hd.2 c = none := by
              simp only [findTemplate, hf]
            rw [this] at hft
            cases hft
          · simp [hf]
        simp only [hpf, List.length_cons]
        simp
        omega
  · intro name r hr
    rw [find_templates_on_screen, List.mem_filterMap] at hr
    obtain ⟨nt, hnt, hmap⟩ := hr
    rcases hres : findTemplate img nt.2 c with _ | r'
    · rw [hres] at hmap
      cases hmap
    · rw [hres] at hmap
      simp only [Option.map_some'] at hmap
      injection hmap with hmap
      have h1 : nt.1 = name := congrArg Prod.fst hmap
      have h2 : r' = r := congrArg Prod.snd hmap
      subst h2
      rcases hf : nt.2.file with _ | tpl
      · exfalso
        simp only [findTemplate, hf] at hres
        exact Option.noConfusion hres
      · refine ⟨nt.2, tpl, ?_, hf, hres⟩
        rw [← h1, Prod.mk.eta]
        exact hnt
  · intro name info r hmem hfind
    rw [find_templates_on_screen, List.mem_filterMap]
    refine ⟨(name, info), hmem, ?_⟩
    show (findTemplate img info c).map _ = _
    rw [hfind]
    rfl


/-- Witness for C5: a batch of 2 templates with 1 missing yields at most
`2 − 1` entries, and the loadable, matching one still contributes. -/
theorem batch_skips_missing_wit :
    (find_templates_on_screen imgC [("ok", infoB), ("miss", infoMiss)] c45).length
      ≤ ([("ok", infoB), ("miss", infoMiss)] : List (String × TemplateInfo)).length
        - ([("ok", infoB), ("miss", infoMiss)] : List (String × TemplateInfo)).countP
            (fun t => t.2.file.isNone) ∧
    ("ok", mkResult tplB (0, 0))
      ∈ find_templates_on_screen imgC [("ok", infoB), ("miss", infoMiss)] c45 :=
  ⟨(batch_skips_missing imgC c45 [("ok", infoB), ("miss", infoMiss)]).1,
    (batch_skips_missing imgC c45 [("ok", infoB), ("miss", infoMiss)]).2.2
      "ok" infoB (mkResult tplB (0, 0)) (by simp) (by decide)⟩


/-- C6 as stated is false on the code: the source scrapes from the first
opening brace to the last closing brace, not the first balanced bracketed
substring.  On the reply `\x7ba\x7d \x7bb\x7d` the first balanced substring
is `\x7ba\x7d`, which the parser accepts, but the code hands the whole span
to the parser and degrades to the error object. -/
theorem payload_extraction_cex :
    firstBalancedBrace demoResp = some [lbrace, 'a', rbrace] ∧
    codeSpan demoResp = demoResp ∧
    codeSpan demoResp ≠ [lbrace, 'a', rbrace] ∧
    process_user_request demoLoads demoResp = ActionResult.err "Parse error" := by
  decide


/-- C6 (amended): `process_user_request` extracts the payload as the span
from the first opening brace to the last closing brace (`codeSpan`); when no
opening brace exists, or the extracted span is not valid structured data
(the parser rejects it), the function returns an explicit error result —
it never lets the parser's failure escape. -/
theorem payload_extraction (J : Type) (loads : List Char → Option J) (s : List Char) :
    (∀ j, process_user_request loads s = ActionResult.parsed j →
      loads (codeSpan s) = some j) ∧
    (pyFindIdx lbrace s = -1 →
      process_user_request loads s = ActionResult.err "Could not parse response") ∧
    (pyFindIdx lbrace s ≠ -1 → loads (codeSpan s) = none →
      process_user_request loads s = ActionResult.err "Parse error") ∧
    ((∃ j, process_user_request loads s = ActionResult.parsed j) ∨
      (∃ msg, process_user_request loads s = ActionResult.err msg)) := by
  have hge : ∀ t : List Char, -1 ≤ pyRfindIdx rbrace t := by
    intro t
    induction t with
    | nil => rw [pyRfindIdx]
    | cons c rest ih =>
      rw [pyRfindIdx]
      split_ifs <;> omega
  have hend : pyRfindIdx rbrace s + 1 ≠ -1 := by
    have := hge s
    omega
  refine ⟨?_, ?_, ?_, ?_⟩
  · intro j h
    rw [process_user_request] at h
    by_cases hstart : pyFindIdx lbrace s = -1
    · rw [if_neg (by simp [hstart])] at h
      cases h
    · rw [if_pos ⟨hstart, hend⟩] at h
      rcases hl : loads ((s.take (pyRfindIdx rbrace s + 1).toNat).drop
          (pyFindIdx lbrace s).toNat) with _ | j'
      · rw [hl] at h
        cases h
      · rw [hl] at h
        injection h with h
        rw [codeSpan]
        rw [h] at hl
        exact hl
  · intro hstart
    rw [process_user_request, if_neg (by simp [hstart])]
  · intro hstart hl
    rw [process_user_request, if_pos ⟨hstart, hend⟩]
    rw [codeSpan] at hl
    rw [hl]
  · rw [process_user_request]
    by_cases hstart : pyFindIdx lbrace s = -1
    · rw [if_neg (by simp [hstart])]
      exact Or.inr ⟨_, rfl⟩
    · rw [if_pos ⟨hstart, hend⟩]
      rcases hl : loads ((s.take (pyRfindIdx rbrace s + 1).toNat).drop
          (pyFindIdx lbrace s).toNat) with _ | j
      · exact Or.inr ⟨_, rfl⟩
      · exact Or.inl ⟨j, rfl⟩


/-- Witness for the amended C6: on a reply with no brace at all the function
returns the explicit error object, and on the demonstration reply the
returned object is an error result, not an exception. -/
theorem payload_extraction_wit :
    process_user_request demoLoads [' ', 'o', 'k'] =
      ActionResult.err "Could not parse response" ∧
    ((∃ j, process_user_request demoLoads demoResp = ActionResult.parsed j) ∨
      (∃ msg, process_user_request demoLoads demoResp = ActionResult.err msg)) :=
  ⟨(payload_extraction (List Char) demoLoads [' ', 'o', 'k']).2.1 (by decide),
    (payload_extraction (List Char) demoLoads demoResp).2.2.2⟩


theorem SSIM.cov_self_nonneg (a : GrayImage) (x y : ℕ) : 0 ≤ cov a a x y := by
  rw [cov]
  apply div_nonneg _ (by norm_num)
  exact Finset.sum_nonneg fun p _ => mul_self_nonneg _


theorem SSIM.cov_sq_le (a b : GrayImage) (x y : ℕ) :
    cov a b x y ^ 2 ≤ cov a a x y * cov b b x y := by
  rw [cov, cov, cov, div_pow, div_mul_div_comm]
  have hkey := Finset.sum_mul_sq_le_sq_mul_sq wIdx
    (fun p => (a.pix (x + p.2) (y + p.1) : ℚ) - mu a x y)
    (fun p => (b.pix (x + p.2) (y + p.1) : ℚ) - mu b x y)
  have ha : ∑ p ∈ wIdx, ((a.pix (x + p.2) (y + p.1) : ℚ) - mu a x y) ^ 2
      = ∑ p ∈ wIdx, ((a.pix (x + p.2) (y + p.1) : ℚ) - mu a x y)
          * ((a.pix (x + p.2) (y + p.1) : ℚ) - mu a x y) :=
    Finset.sum_congr rfl fun p _ => sq _
  have hb : ∑ p ∈ wIdx, ((b.pix (x + p.2) (y + p.1) : ℚ) - mu b x y) ^ 2
      = ∑ p ∈ wIdx, ((b.pix (x + p.2) (y + p.1) : ℚ) - mu b x y)
          * ((b.pix (x + p.2) (y + p.1) : ℚ) - mu b x y) :=
    Finset.sum_congr rfl fun p _ => sq _
  rw [ha, hb] at hkey
  have h48 : (0:ℚ) < 48 ^ 2 := by norm_num
  rw [div_le_div_iff₀ (by norm_num) (by norm_num)]
  calc (∑ p ∈ wIdx, ((a.pix (x + p.2) (y + p.1) : ℚ) - mu a x y)
          * ((b.pix (x + p.2) (y + p.1) : ℚ) - mu b x y)) ^ 2 * (48 * 48)
      ≤ ((∑ p ∈ wIdx, ((a.pix (x + p.2) (y + p.1) : ℚ) - mu a x y)
          * ((a.pix (x + p.2) (y + p.1) : ℚ) - mu a x y))
        * ∑ p ∈ wIdx, ((b.pix (x + p.2) (y + p.1) : ℚ) - mu b x y)
          * ((b.pix (x + p.2) (y + p.1) : ℚ) - mu b x y)) * (48 * 48) := by
        have h4848 : (0:ℚ) ≤ 48 * 48 := by norm_num
        exact mul_le_mul_of_nonneg_right hkey h4848
    _ = _ := by ring


theorem SSIM.ratio_bounds {ma mb vab va vb : ℚ} (hva : 0 ≤ va) (hvb : 0 ≤ vb)
    (hcs : vab ^ 2 ≤ va * vb) :
    -1 ≤ ((2 * ma * mb + C1q) * (2 * vab + C2q)) /
        ((ma ^ 2 + mb ^ 2 + C1q) * (va + vb + C2q)) ∧
      ((2 * ma * mb + C1q) * (2 * vab + C2q)) /
        ((ma ^ 2 + mb ^ 2 + C1q) * (va + vb + C2q)) ≤ 1 := by
  have hC1 : (0:ℚ) < C1q := by norm_num [C1q]
  have hC2 : (0:ℚ) < C2q := by norm_num [C2q]
  have hQ1 : 0 < ma ^ 2 + mb ^ 2 + C1q := by positivity
  have hQ2 : 0 < va + vb + C2q := by positivity
  have h2ab : 2 * vab ≤ va + vb := by
    rcases le_or_lt vab 0 with h0 | h0
    · nlinarith
    · nlinarith [hcs, sq_nonneg (va - vb), sq_nonneg (va + vb)]
  have h2ab' : -(va + vb) ≤ 2 * vab := by
    rcases le_or_lt 0 vab with h0 | h0
    · nlinarith
    · nlinarith [hcs, sq_nonneg (va - vb), sq_nonneg (va + vb)]
  have habs1 : |2 * ma * mb + C1q| ≤ ma ^ 2 + mb ^ 2 + C1q := by
    rw [abs_le]
    constructor
    · nlinarith [sq_nonneg (ma + mb)]
    · nlinarith [sq_nonneg (ma - mb)]
  have habs2 : |2 * vab + C2q| ≤ va + vb + C2q := by
    rw [abs_le]
    constructor
    · linarith
    · linarith
  have hD : 0 < (ma ^ 2 + mb ^ 2 + C1q) * (va + vb + C2q) := mul_pos hQ1 hQ2
  have habs : |((2 * ma * mb + C1q) * (2 * vab + C2q)) /
      ((ma ^ 2 + mb ^ 2 + C1q) * (va + vb + C2q))| ≤ 1 := by
    rw [abs_div, abs_of_pos hD, div_le_one hD, abs_mul]
    exact mul_le_mul habs1 habs2 (abs_nonneg _) (le_trans (abs_nonneg _) habs1)
  exact abs_le.mp habs


theorem SSIM.localSSIM_bounds (a b : GrayImage) (x y : ℕ) :
    -1 ≤ localSSIM a b x y ∧ localSSIM a b x y ≤ 1 := by
  rw [localSSIM]
  exact ratio_bounds (cov_self_nonneg a x y) (cov_self_nonneg b x y) (cov_sq_le a b x y)


theorem SSIM.localSSIM_self (a : GrayImage) (x y : ℕ) : localSSIM a a x y = 1 := by
  rw [localSSIM]
  have hC1 : (0:ℚ) < C1q := by norm_num [C1q]
  have hC2 : (0:ℚ) < C2q := by norm_num [C2q]
  have hva : 0 ≤ cov a a x y := cov_self_nonneg a x y
  have hD : 0 < (mu a x y ^ 2 + mu a x y ^ 2 + C1q) * (cov a a x y + cov a a x y + C2q) := by
    positivity
  rw [div_eq_one_iff_eq (ne_of_gt hD)]
  ring


theorem SSIM.ssimScore_self (a : GrayImage) (h7w : 7 ≤ a.width) (h7h : 7 ≤ a.height) :
    ssimScore a a = 1 := by
  rw [ssimScore]
  have hall : ∀ p ∈ posIdx a, localSSIM a a p.2 p.1 = (1:ℚ) :=
    fun p _ => localSSIM_self a p.2 p.1
  rw [Finset.sum_congr rfl hall, Finset.sum_const, nsmul_eq_mul, mul_one]
  have hcard : (posIdx a).card ≠ 0 := by
    rw [posIdx, Finset.card_product, Finset.card_range, Finset.card_range]
    have : 0 < a.height - 6 := by omega
    have : 0 < a.width - 6 := by omega
    positivity
  exact div_self (by exact_mod_cast hcard)


theorem SSIM.ssimScore_bounds (a b : GrayImage) :
    -1 ≤ ssimScore a b ∧ ssimScore a b ≤ 1 := by
  rw [ssimScore]
  rcases Nat.eq_zero_or_pos (posIdx a).card with h | h
  · rw [h]
    norm_num
  · have hcard : (0:ℚ) < ((posIdx a).card : ℚ) := by exact_mod_cast h
    constructor
    · rw [le_div_iff₀ hcard]
      have := Finset.card_nsmul_le_sum (posIdx a) (fun p => localSSIM a b p.2 p.1) (-1)
        (fun p _ => (localSSIM_bounds a b p.2 p.1).1)
      rw [nsmul_eq_mul] at this
      linarith
    · rw [div_le_one hcard]
      have := Finset.sum_le_card_nsmul (posIdx a) (fun p => localSSIM a b p.2 p.1) 1
        (fun p _ => (localSSIM_bounds a b p.2 p.1).2)
      rw [nsmul_eq_mul] at this
      linarith


/-- C7 as stated is false on the code: the similarity score is not confined
to `[0, 1]`.  Comparing the 2×1 frames `[0,1]` and `[1,0]` on the fallback
path returns the normalized cross-correlation `-1 < 0`. -/
theorem similarity_range_cex :
    compare_screenshots (fun b _ _ => b) false tplA imgE = -1 ∧ (-1 : ℝ) < 0 := by
  constructor
  · have hred : compare_screenshots (fun b _ _ => b) false tplA imgE
        = NCC.score tplA imgE 0 0 := by
      rw [compare_screenshots]
      simp
    rw [hred]
    have h1 : NCC.ccNum tplA imgE 0 0 = -1 := by decide
    have h2 : NCC.ccDenT imgE * NCC.ccDenW tplA imgE 0 0 = 1 := by decide
    rw [NCC.score, h1, h2]
    norm_num [Real.sqrt_one]
  · norm_num


/-- C7 (amended): comparing an image with an identical copy returns the
primary metric's maximum `1.0` (SSIM path, defined for images of at least
the 7×7 window; also on the fallback path for non-constant images), and
every returned score lies in `[-1, 1]` — not `[0, 1]`: both the SSIM and the
correlation fallback can be negative for anti-correlated inputs. -/
theorem similarity_self_and_range (resizeFn : GrayImage → ℕ → ℕ → GrayImage)
    (a : GrayImage) :
    (7 ≤ a.width → 7 ≤ a.height → compare_screenshots resizeFn true a a = 1) ∧
    (0 < NCC.ccDenT a → compare_screenshots resizeFn false a a = 1) ∧
    (∀ avail : Bool, ∀ b : GrayImage,
      -1 ≤ compare_screenshots resizeFn avail a b ∧
        compare_screenshots resizeFn avail a b ≤ 1) := by
  refine ⟨?_, ?_, ?_⟩
  · intro h7w h7h
    rw [compare_screenshots]
    simp only [and_self, if_pos, if_true]
    rw [SSIM.ssimScore_self a h7w h7h]
    norm_num
  · intro hvar
    rw [compare_screenshots]
    simp only [and_self, if_pos, Bool.false_eq_true, if_false]
    have hembed : embedsAt a a 0 0 := by
      intro i _ j _
      rw [Nat.zero_add, Nat.zero_add]
    exact NCC.score_embed hembed hvar
  · intro avail b
    rw [compare_screenshots]
    rcases avail with _ | _
    · simp only [Bool.false_eq_true, if_false]
      exact ⟨NCC.neg_one_le_score _ _ 0 0, NCC.score_le_one _ _ 0 0⟩
    · simp only [if_true]
      constructor
      · have := (SSIM.ssimScore_bounds a
          (if a.width = b.width ∧ a.height = b.height then b
            else resizeFn b a.width a.height)).1
        exact_mod_cast this
      · have := (SSIM.ssimScore_bounds a
          (if a.width = b.width ∧ a.height = b.height then b
            else resizeFn b a.width a.height)).2
        exact_mod_cast this


/-- Witness for the amended C7: a concrete 7×7 image compared with itself on
the primary path gives exactly 1, the fallback also gives 1 on a concrete
non-constant image, and scores stay within `[-1, 1]`. -/
theorem similarity_self_and_range_wit :
    compare_screenshots (fun b _ _ => b) true img7 img7 = 1 ∧
    compare_screenshots (fun b _ _ => b) false tplA tplA = 1 ∧
    (-1 ≤ compare_screenshots (fun b _ _ => b) false tplA imgE ∧
      compare_screenshots (fun b _ _ => b) false tplA imgE ≤ 1) :=
  ⟨(similarity_self_and_range (fun b _ _ => b) img7).1 (by decide) (by decide),
    (similarity_self_and_range (fun b _ _ => b) tplA).2.1 (by decide),
    (similarity_self_and_range (fun b _ _ => b) tplA).2.2 false imgE⟩


theorem uint32_le_iff {a b : UInt32} : a ≤ b ↔ a.toNat ≤ b.toNat := by
  rw [UInt32.le_def, BitVec.le_def]
  exact Iff.rfl


theorem char_isUpper_iff {c : Char} :
    c.isUpper = true ↔ 65 ≤ c.toNat ∧ c.toNat ≤ 90 := by
  rw [Char.isUpper, Bool.and_eq_true, decide_eq_true_eq, decide_eq_true_eq,
    ge_iff_le, uint32_le_iff, uint32_le_iff]
  exact Iff.rfl


theorem char_isLower_iff {c : Char} :
    c.isLower = true ↔ 97 ≤ c.toNat ∧ c.toNat ≤ 122 := by
  rw [Char.isLower, Bool.and_eq_true, decide_eq_true_eq, decide_eq_true_eq,
    ge_iff_le, uint32_le_iff, uint32_le_iff]
  exact Iff.rfl


theorem char_isDigit_iff {c : Char} :
    c.isDigit = true ↔ 48 ≤ c.toNat ∧ c.toNat ≤ 57 := by
  rw [Char.isDigit, Bool.and_eq_true, decide_eq_true_eq, decide_eq_true_eq,
    ge_iff_le, uint32_le_iff, uint32_le_iff]
  exact Iff.rfl


theorem char_toNat_ofNat {n : ℕ} (h : n.isValidChar) : (Char.ofNat n).toNat = n := by
  rw [Char.ofNat, dif_pos h]
  rfl


theorem toLower_of_isUpper {c : Char} (h : c.isUpper = true) :
    (Char.toLower c).isLower = true := by
  rw [char_isUpper_iff] at h
  rw [Char.toLower]
  simp only [ge_iff_le]
  rw [if_pos ⟨h.1, h.2⟩, char_isLower_iff]
  have hvalid : (c.toNat + 32).isValidChar := Or.inl (by omega)
  rw [char_toNat_ofNat hvalid]
  omega


theorem toLower_of_not_upper {c : Char} (h : ¬(65 ≤ c.toNat ∧ c.toNat ≤ 90)) :
    Char.toLower c = c := by
  rw [Char.toLower]
  simp only [ge_iff_le]
  rw [if_neg h]


theorem sanitize_char_shape (name : List Char) :
    ∀ c ∈ sanitize name, c = '_' ∨ c.isLower = true ∨ c.isDigit = true := by
  intro c hc
  rw [sanitize, List.map_map, List.mem_map] at hc
  obtain ⟨c0, -, hc0⟩ := hc
  rw [Function.comp] at hc0
  by_cases halnum : c0.isAlphanum = true
  · rw [if_pos halnum] at hc0
    rw [Char.isAlphanum, Bool.or_eq_true, Char.isAlpha, Bool.or_eq_true] at halnum
    rcases halnum with (hup | hlo) | hdig
    · right
      left
      rw [← hc0]
      exact toLower_of_isUpper hup
    · right
      left
      rw [char_isLower_iff] at hlo
      rw [← hc0, toLower_of_not_upper (by omega), char_isLower_iff]
      exact hlo
    · right
      right
      rw [char_isDigit_iff] at hdig
      rw [← hc0, toLower_of_not_upper (by omega), char_isDigit_iff]
      exact hdig
  · left
    rw [if_neg halnum] at hc0
    rw [← hc0]
    decide


theorem foldl_update_not_mem {α β : Type} [DecidableEq α] {k : α} :
    ∀ (l : List (α × β)) (m : α → Option β), k ∉ l.map Prod.fst →
      l.foldl (fun (acc : α → Option β) (kv : α × β) => Function.update acc kv.1 (some kv.2)) m k
        = m k := by
  intro l
  induction l with
  | nil => intro m _; rfl
  | cons hd tl ih =>
    intro m h
    rw [List.map_cons, List.mem_cons] at h
    push_neg at h
    rw [List.foldl_cons, ih _ h.2, Function.update_noteq h.1]


theorem foldl_update_last_write {α β : Type} [DecidableEq α]
    (l1 l2 l3 : List (α × β)) (k : α) (v1 v2 : β) (m : α → Option β)
    (h : k ∉ l3.map Prod.fst) :
    (l1 ++ (k, v1) :: l2 ++ (k, v2) :: l3).foldl
      (fun (acc : α → Option β) (kv : α × β) => Function.update acc kv.1 (some kv.2)) m k
      = some v2 := by
  rw [List.foldl_append, List.foldl_cons, List.foldl_append, List.foldl_cons]
  rw [foldl_update_not_mem _ _ h]
  rw [Function.update_same]


/-- C8: the Template Store's sanitization maps every non-alphanumeric
character to `'_'` and lowercases, so storage keys consist only of lowercase
letters, digits and underscores; two distinct names can sanitize to the same
key ("a b" and "a_b" both give "a_b"); and when two elements write the same
sanitized filename, the later write silently overwrites the earlier stored
file — the final disk content under the key is the last write's raster. -/
theorem sanitize_store_behavior :
    (∀ name : List Char, ∀ c ∈ sanitize name,
      c = '_' ∨ c.isLower = true ∨ c.isDigit = true) ∧
    (∃ n1 n2 : List Char, n1 ≠ n2 ∧ sanitize n1 = sanitize n2) ∧
    (∀ (screenshot : GrayImage) (elements : List Element)
        (l1 l2 l3 : List (List Char × GrayImage)) (k : List Char)
        (v1 v2 : GrayImage),
      templateWrites screenshot elements = l1 ++ (k, v1) :: l2 ++ (k, v2) :: l3 →
      k ∉ l3.map Prod.fst →
      diskAfter screenshot elements k = some v2) := by
  refine ⟨sanitize_char_shape, ⟨['a', ' ', 'b'], ['a', '_', 'b'], by decide, by decide⟩, ?_⟩
  intro screenshot elements l1 l2 l3 k v1 v2 hw hmem
  rw [diskAfter, hw]
  exact foldl_update_last_write l1 l2 l3 k v1 v2 _ hmem


/-- Witness for C8 at a concrete input: `a b` and `a_b` collide on the key
`a_b`, and the second element's raster is what ends up on disk. -/
theorem sanitize_store_behavior_wit :
    (∀ c ∈ sanitize ['a', ' ', 'b'],
      c = '_' ∨ c.isLower = true ∨ c.isDigit = true) ∧
    diskAfter scr2 [elA, elB] ['a', '_', 'b'] = some cropB :=
  ⟨sanitize_store_behavior.1 ['a', ' ', 'b'],
    sanitize_store_behavior.2.2 scr2 [elA, elB] [] [] []
      ['a', '_', 'b'] cropA cropB rfl (by decide)⟩


/-- C9 (amended): every template that `extract_templates` records has a
raster with non-zero width and height — an extraction that would produce an
empty raster fails in `crop` (inverted box) or `save` (zero-size PNG) and is
skipped — but the bounding box is NOT validated against the screenshot
dimensions: out-of-bounds boxes are padded by `PIL.Image.crop` and recorded
(see the counterexample). -/
theorem extracted_template_nonempty (screenshot : GrayImage)
    (elements : List Element) (nm : List Char) (tr : TemplateRec)
    (h : (nm, tr) ∈ extract_templates screenshot elements) :
    0 < tr.image.width ∧ 0 < tr.image.height := by
  rw [extract_templates, List.mem_filterMap] at h
  obtain ⟨e, -, he⟩ := h
  rcases hn : e.name with _ | nm'
  · simp only [hn] at he
    exact Option.noConfusion he
  · rcases hb : e.bounding_box with _ | bb
    · simp only [hn, hb] at he
      exact Option.noConfusion he
    · obtain ⟨x1, y1, x2, y2⟩ := bb
      simp only [hn, hb] at he
      rcases hcrop : pilCrop screenshot x1 y1 x2 y2 with u | imgc
      · simp only [hcrop] at he
        exact Option.noConfusion he
      · simp only [hcrop] at he
        rcases hsave : pilSave imgc with u | u
        · simp only [hsave] at he
          exact Option.noConfusion he
        · simp only [hsave] at he
          injection he with he
          have h2 : (⟨sanitize nm', (x1, y1, x2, y2), imgc⟩ : TemplateRec) = tr :=
            congrArg Prod.snd he
          have himg : tr.image = imgc := by
            rw [← h2]
          rw [pilSave] at hsave
          by_cases hz : imgc.width = 0 ∨ imgc.height = 0
          · rw [if_pos hz] at hsave
            cases hsave
          · push_neg at hz
            rw [himg]
            omega


/-- C9's bounding-box half is false as stated: cropping box `(0,0,20,20)`
from a 10×10 screenshot is not rejected — `crop` pads with zeros and the
template is recorded with a bounding box outside the screenshot. -/
theorem extracted_template_cex :
    extract_templates scr10 [elOut] = [(['o'], recOut)] ∧
    recOut.bounding_box = (0, 0, 20, 20) ∧
    ¬(recOut.bounding_box.2.2.1 ≤ (scr10.width : ℤ) ∧
      recOut.bounding_box.2.2.2 ≤ (scr10.height : ℤ)) :=
  ⟨rfl, rfl, by decide⟩


/-- Witness for the amended C9 at a concrete recorded template. -/
theorem extracted_template_nonempty_wit :
    0 < cropB.width ∧ 0 < cropB.height :=
  extracted_template_nonempty scr2 [elA, elB] ['a', '_', 'b']
    ⟨sanitize ['a', '_', 'b'], (1, 0, 2, 1), cropB⟩
    (List.mem_cons.mpr (Or.inr (List.mem_singleton.mpr rfl)))


theorem runPrims_false {dispatch : Prim → Bool} :
    ∀ {ps : List Prim} {p : Prim}, p ∈ ps → dispatch p = false →
      (runPrims dispatch ps).1 = false := by
  intro ps
  induction ps with
  | nil => intro p h _; cases h
  | cons hd tl ih =>
    intro p hmem hdp
    rcases List.mem_cons.mp hmem with rfl | hmem'
    · rw [runPrims, hdp]
      simp
    · rw [runPrims]
      by_cases hhd : dispatch hd = true
      · rw [if_pos hhd]
        exact ih hmem' hdp
      · rw [if_neg hhd]


/-- C10: `execute_action` always returns a boolean — dispatch exceptions are
caught and yield `False` — and it returns `False` having dispatched nothing
when a location-requiring action (`click`, `double_click`, `right_click`,
`drag`, `type`, `scroll`) has no location, when `drag` lacks an
`end_location`, when `hotkey` has an empty key list, or when the action type
is unrecognized. -/
theorem execute_action_safe (dispatch : Prim → Bool) (action_type : String)
    (location : Option (ℤ × ℤ)) (kw : ActionKwargs) :
    (action_type ∈ (["click", "double_click", "right_click", "drag", "type",
        "scroll"] : List String) → location = none →
      execute_action dispatch action_type location kw = (false, [])) ∧
    (action_type = "drag" → kw.end_location = none →
      execute_action dispatch action_type location kw = (false, [])) ∧
    (action_type = "hotkey" → kw.keys.getD [] = [] →
      execute_action dispatch action_type location kw = (false, [])) ∧
    (action_type ∉ (["click", "double_click", "right_click", "drag", "type",
        "hotkey", "scroll", "wait", "finished", "call_user"] : List String) →
      execute_action dispatch action_type location kw = (false, [])) ∧
    (∀ ps p, plannedPrims action_type location kw = some ps → p ∈ ps →
      dispatch p = false →
      (execute_action dispatch action_type location kw).1 = false) := by
  refine ⟨?_, ?_, ?_, ?_, ?_⟩
  · intro hmem hloc
    subst hloc
    fin_cases hmem <;> simp [execute_action, plannedPrims]
  · intro hty hend
    subst hty
    rw [execute_action]
    rcases location with _ | loc
    · simp [plannedPrims]
    · simp [plannedPrims, hend]
  · intro hty hkeys
    subst hty
    rw [execute_action]
    simp only [plannedPrims, hkeys]
    simp
  · intro hmem
    have h1 : action_type ≠ "click" := fun he => hmem (by rw [he]; simp)
    have h2 : action_type ≠ "double_click" := fun he => hmem (by rw [he]; simp)
    have h3 : action_type ≠ "right_click" := fun he => hmem (by rw [he]; simp)
    have h4 : action_type ≠ "drag" := fun he => hmem (by rw [he]; simp)
    have h5 : action_type ≠ "type" := fun he => hmem (by rw [he]; simp)
    have h6 : action_type ≠ "hotkey" := fun he => hmem (by rw [he]; simp)
    have h7 : action_type ≠ "scroll" := fun he => hmem (by rw [he]; simp)
    have h8 : action_type ≠ "wait" := fun he => hmem (by rw [he]; simp)
    have h9 : action_type ≠ "finished" := fun he => hmem (by rw [he]; simp)
    have h10 : action_type ≠ "call_user" := fun he => hmem (by rw [he]; simp)
    rw [execute_action]
    simp [plannedPrims, h1, h2, h3, h4, h5, h6, h7, h8, h9, h10]
  · intro ps p hps hmem hdp
    rw [execute_action, hps]
    exact runPrims_false hmem hdp


/-- Witness for C10: concrete `False` outcomes — `click` without location,
`drag` without end point, `hotkey` with no keys, an unknown action type —
and a raising dispatcher caught as `False`. -/
theorem execute_action_safe_wit :
    execute_action (fun _ => true) "click" none kw0 = (false, []) ∧
    execute_action (fun _ => true) "drag" (some (1, 2)) kw0 = (false, []) ∧
    execute_action (fun _ => true) "hotkey" none kw0 = (false, []) ∧
    execute_action (fun _ => true) "fly" none kw0 = (false, []) ∧
    (execute_action (fun _ => false) "wait" none kw0).1 = false :=
  ⟨(execute_action_safe (fun _ => true) "click" none kw0).1 (by simp) rfl,
    (execute_action_safe (fun _ => true) "drag" (some (1, 2)) kw0).2.1 rfl rfl,
    (execute_action_safe (fun _ => true) "hotkey" none kw0).2.2.1 rfl rfl,
    (execute_action_safe (fun _ => true) "fly" none kw0).2.2.2.1 (by simp),
    (execute_action_safe (fun _ => false) "wait" none kw0).2.2.2.2
      [Prim.sleepSec 5] (Prim.sleepSec 5) (by decide) (by decide) rfl⟩

